import Mathlib

/-!
Verification development for the aurelia binding/observation engine.

The definitions below are a shallow embedding of:
* `src/test/realworld/src/components/settings/settings.ts`
  (`InterpolationBinding`, `ContentBinding`, `ContentBinding2`, `queueTaskOptions`),
* `src/packages/runtime/src/lifecycle.ts` (`State`, `stringifyState`, `BatchQueue`),
* `src/packages/runtime-html/src/binding/binding-utils.ts` (`BindingTargetSubscriber`).

JavaScript machine values are modelled by the inductive `JSVal`; reference
values (DOM nodes, arrays) carry a numeric identity so that `===` is reference
equality.  Numbers are modelled as integers (no claim depends on non-integral
or NaN arithmetic).  Object-to-primitive coercion in loose equality is not
modelled: a reference value is loosely equal only to itself.
-/

/-- Model of a JavaScript value as it flows through the bindings. -/
inductive JSVal where
  | undefined : JSVal
  | null : JSVal
  | bool : Bool → JSVal
  | num : Int → JSVal
  | str : String → JSVal
  | node : Nat → JSVal
  | arr : Nat → JSVal
deriving DecidableEq, Repr

/-- Whether a value is a JS array (`value instanceof Array`). -/
def JSVal.isArray : JSVal → Bool
  | .arr _ => true
  | _ => false

/-- Whether a value is a DOM node (`value instanceof this.platform.Node`). -/
def JSVal.isNode : JSVal → Bool
  | .node _ => true
  | _ => false

/-- Accumulating decimal parser over the character list of a string. -/
def parseDigitsAux : List Char → Nat → Option Nat
  | [], acc => some acc
  | c :: rest, acc =>
      if c.isDigit then parseDigitsAux rest (acc * 10 + (c.toNat - 48)) else none

/-- JS `ToNumber` on a string, restricted to optionally negated decimal
integer literals; `""` converts to `0`, anything else is NaN (`none`). -/
def jsStringToInt (s : String) : Option Int :=
  match s.data with
  | [] => some 0
  | ['-'] => none
  | '-' :: rest => (parseDigitsAux rest 0).map (fun n => -(n : Int))
  | cs => (parseDigitsAux cs 0).map (fun n => (n : Int))

/-- JS `ToNumber` on a boolean. -/
def boolToInt (b : Bool) : Int := if b then 1 else 0

/-- JS `String(value)` / string coercion used by `+` concatenation and by
`target.textContent = String(value)`.  Array element joining is not modelled
elementwise (arrays carry only an identity here). -/
def jsToString : JSVal → String
  | .undefined => "undefined"
  | .null => "null"
  | .bool b => if b then "true" else "false"
  | .num n => toString n
  | .str s => s
  | .node _ => "[object Node]"
  | .arr _ => "[object Array]"

/-- JS loose equality `==` on the modelled value domain.  Reference values
are loosely equal only to the same reference (object-to-primitive coercion
is not modelled). -/
def jsLooseEq : JSVal → JSVal → Bool
  | .undefined, .undefined => true
  | .null, .null => true
  | .undefined, .null => true
  | .null, .undefined => true
  | .num a, .num b => a == b
  | .str a, .str b => a == b
  | .bool a, .bool b => a == b
  | .num a, .str s => jsStringToInt s == some a
  | .str s, .num a => jsStringToInt s == some a
  | .bool b, .num a => boolToInt b == a
  | .num a, .bool b => boolToInt b == a
  | .bool b, .str s => jsStringToInt s == some (boolToInt b)
  | .str s, .bool b => jsStringToInt s == some (boolToInt b)
  | .node i, .node j => i == j
  | .arr i, .arr j => i == j
  | _, _ => false

/-- JS strict equality `===` on the modelled value domain (structural on
primitives, reference identity on nodes/arrays; integers have no NaN). -/
def jsStrictEq (a b : JSVal) : Bool := a == b

/-- Modelled from the spec: `BindingMode` bit flags of the runtime flags
module (imported by the bindings, not among the extracted sources). -/
def BindingMode.oneTime : Nat := 1

/-- Modelled from the spec: the `toView` binding-mode bit. -/
def BindingMode.toView : Nat := 2

/-- Modelled from the spec: the `fromView` binding-mode bit. -/
def BindingMode.fromView : Nat := 4

/-- Modelled from the spec: `twoWay` is `toView | fromView`. -/
def BindingMode.twoWay : Nat := 6

/-- Modelled from the spec: `LifecycleFlags.none`. -/
def LifecycleFlags.none : Nat := 0

/-- Modelled from the spec: the `LifecycleFlags.fromBind` bit, set on all
operations performed from within `$bind`. -/
def LifecycleFlags.fromBind : Nat := 1

/-- Modelled from the spec: the `AccessorType.Layout` bit, marking target
accessors whose writes are layout-affecting. -/
def AccessorType.Layout : Nat := 4

/-- Modelled from the spec: the expression `$kind` tag; only the
`AccessScope` (bare single-property access) distinction is observed by the
extracted sources. -/
inductive ExpressionKind where
  | accessScope : ExpressionKind
  | other : ExpressionKind
deriving DecidableEq, Repr

/-- Options passed to `queueTask` (`QueueTaskOptions` of the kernel). -/
structure QueueTaskOptions where
  reusable : Bool
  preempt : Bool
deriving DecidableEq, Repr

/-- `const queueTaskOptions = { reusable: false, preempt: true }` from
`settings.ts`. -/
def queueTaskOptions : QueueTaskOptions := { reusable := false, preempt := true }

/-! ### Controller `State` bit flags (`lifecycle.ts`, `const enum State`). -/

/-- `State.none = 0b0000000000`. -/
def State.none : Nat := 0b0000000000

/-- `State.activating = 0b0000000001`. -/
def State.activating : Nat := 0b0000000001

/-- `State.beforeBindCalled = 0b0000000010`. -/
def State.beforeBindCalled : Nat := 0b0000000010

/-- `State.activateChildrenCalled = 0b0000000100`. -/
def State.activateChildrenCalled : Nat := 0b0000000100

/-- `State.activated = 0b0000001110`. -/
def State.activated : Nat := 0b0000001110

/-- `State.deactivating = 0b0000010000`. -/
def State.deactivating : Nat := 0b0000010000

/-- `State.beforeDetachCalled = 0b0000100000`. -/
def State.beforeDetachCalled : Nat := 0b0000100000

/-- `State.deactivateChildrenCalled = 0b0001000000`. -/
def State.deactivateChildrenCalled : Nat := 0b0001000000

/-- `State.deactivated = 0b0011100000`. -/
def State.deactivated : Nat := 0b0011100000

/-- `State.released = 0b0100000000`. -/
def State.released : Nat := 0b0100000000

/-- `State.disposed = 0b1000000000`. -/
def State.disposed : Nat := 0b1000000000

/-- The flag test `(state & flag) === flag` used throughout
`stringifyState`. -/
def stateHas (state flag : Nat) : Bool := state &&& flag == flag

/-- Shallow embedding of `stringifyState` (`lifecycle.ts`): collects flag
names in push order and joins them with `|`, printing `activated` /
`deactivated` in place of their constituent phase flags when the composite
mask is fully present. -/
def stringifyState (state : Nat) : String :=
  let names : List String :=
    (if stateHas state State.activating then ["activating"] else [])
    ++ (if stateHas state State.activated then ["activated"]
        else
          (if stateHas state State.beforeBindCalled then ["beforeBindCalled"] else [])
          ++ (if stateHas state State.activateChildrenCalled then ["activateChildrenCalled"] else []))
    ++ (if stateHas state State.deactivating then ["deactivating"] else [])
    ++ (if stateHas state State.deactivated then ["deactivated"]
        else
          (if stateHas state State.beforeDetachCalled then ["beforeDetachCalled"] else [])
          ++ (if stateHas state State.deactivateChildrenCalled then ["deactivateChildrenCalled"] else []))
    ++ (if stateHas state State.released then ["released"] else [])
    ++ (if stateHas state State.disposed then ["disposed"] else [])
  if names.length = 0 then "none" else String.intercalate "|" names

/-! ### Interpolation concatenation (`InterpolationBinding.updateTarget`). -/

/-- The `for` loop of `updateTarget`: starting from the accumulated result,
append `partBindings[i].value + staticParts[i + 1]` for each remaining part.
Out-of-range static parts read as JS `undefined` (stringified). -/
def interpLoop : String → List JSVal → List String → String
  | acc, [], _ => acc
  | acc, v :: vs, statics =>
      interpLoop (acc ++ jsToString v ++ statics.headD "undefined") vs statics.tail

/-- The concatenation computed by `InterpolationBinding.updateTarget`:
a dedicated 2-part formula when there is exactly one part binding, the loop
otherwise. -/
def interpResult (staticParts : List String) (partValues : List JSVal) : String :=
  if partValues.length = 1 then
    staticParts.getD 0 "undefined" ++ jsToString (partValues.getD 0 JSVal.undefined)
      ++ staticParts.getD 1 "undefined"
  else
    interpLoop (staticParts.getD 0 "undefined") partValues (staticParts.drop 1)

/-- The rendering the spec describes: `S0 + v0 + S1 + v1 + ... + Sk`,
interleaving static parts and dynamic values in source order. -/
def interleaveSpec : List String → List JSVal → String
  | [], _ => ""
  | s :: _, [] => s
  | s :: ss, v :: vs => s ++ jsToString v ++ interleaveSpec ss vs

/-- Tail of the interleaving, used to relate the loop to the spec form. -/
def interleaveTail : List JSVal → List String → String
  | [], _ => ""
  | v :: vs, statics => jsToString v ++ statics.headD "undefined" ++ interleaveTail vs statics.tail

/-! ### Dependency tracking record (`connectable`, §4.2 of the spec). -/

/-- Modelled from the spec: the `ObserverRecord` installed on each binding by
the `connectable` mixin (implemented in the runtime observation module, not
among the extracted sources).  It maps observed dependencies (by identity) to
the version at which they were last seen, and carries the current version
counter.  `count` is the number of live subscriptions. -/
structure ObserverRecord where
  version : Nat
  entries : List (Nat × Nat)
deriving DecidableEq, Repr

/-- The number of subscriptions currently held (`record.count`). -/
def ObserverRecord.count (r : ObserverRecord) : Nat := r.entries.length

/-- Modelled from the spec: a connected evaluation's property read marks the
dependency with the current version, creating the entry if it is new. -/
def ObserverRecord.observe (r : ObserverRecord) (o : Nat) : ObserverRecord :=
  if r.entries.any (fun e => e.1 == o) then
    { r with entries := r.entries.map (fun e => if e.1 == o then (o, r.version) else e) }
  else
    { r with entries := r.entries ++ [(o, r.version)] }

/-- Modelled from the spec: `record.clear(all)` — with `all = true` it
unsubscribes everything (unbind), with `all = false` it removes exactly the
stale entries, those not marked with the current version (the diff step). -/
def ObserverRecord.clear (r : ObserverRecord) (all : Bool) : ObserverRecord :=
  if all then { r with entries := [] }
  else { r with entries := r.entries.filter (fun e => e.2 == r.version) }

/-- One snapshot of an external source expression as the bindings observe it:
its `$kind` tag, its `hasBind`/`hasUnbind` declarations, the value
`evaluate` currently produces, and the dependencies a connected evaluation
reads (§6 of the spec: expressions are external collaborators). -/
structure SourceExpression where
  kind : ExpressionKind
  hasBind : Bool
  hasUnbind : Bool
  value : JSVal
  reads : List Nat
deriving DecidableEq, Repr

/-- The optimization test shared by both content bindings'
`handleChange`: the expression is a bare `AccessScope` and the record holds
exactly one subscription. -/
def canOptimizeFor (expr : SourceExpression) (obs : ObserverRecord) : Bool :=
  expr.kind == ExpressionKind.accessScope && obs.count == 1

/-- The non-optimized re-tracking path shared by both content bindings'
`handleChange`: when the mode has `toView`, bump the version, re-evaluate
connected (reads mark their entries) and diff stale entries out; otherwise
evaluate without touching the record. -/
def retrackObs (obs : ObserverRecord) (mode : Nat) (reads : List Nat) : ObserverRecord :=
  let shouldConnect := (mode &&& BindingMode.toView) != 0
  let obsA := if shouldConnect then { obs with version := obs.version + 1 } else obs
  let obsB := if shouldConnect then reads.foldl ObserverRecord.observe obsA else obsA
  if shouldConnect then obsB.clear false else obsB

/-! ### `ContentBinding` (segment binding of an interpolation, `settings.ts`). -/

/-- State of a `ContentBinding`: the segment binding owned by an
`InterpolationBinding`.  The `mode` field is `readonly` in the source and
initialized to `BindingMode.toView`; it is kept as data because the source
comments note a binding behavior may override it at runtime. -/
structure ContentBinding where
  mode : Nat
  value : JSVal
  scope : Option Nat
  hostScope : Option Nat
  isBound : Bool
  obs : ObserverRecord
deriving DecidableEq, Repr

/-- Observable outcome of one `ContentBinding.handleChange` call: the new
binding state, whether `sourceExpression.evaluate` was invoked, whether that
evaluation was connected (tracked), whether `observeCollection` was invoked,
and the argument of the `owner.updateTarget` call if one was made. -/
structure ContentHandleResult where
  b : ContentBinding
  evaluated : Bool
  connected : Bool
  observedCollection : Bool
  updatedOwner : Option JSVal
deriving DecidableEq, Repr

/-- Shallow embedding of `ContentBinding.handleChange` (`settings.ts`):
early-out when not bound; skip re-evaluation when the expression is a bare
`AccessScope` and exactly one subscription is held; otherwise bump the
version, re-evaluate (connected only when the mode has `toView`), and diff
stale entries out; finally compare loosely against the cached value and,
on change, cache, observe arrays and notify the owner. -/
def ContentBinding.handleChange (cb : ContentBinding) (expr : SourceExpression)
    (newValue : JSVal) : ContentHandleResult :=
  if !cb.isBound then
    { b := cb, evaluated := false, connected := false,
      observedCollection := false, updatedOwner := none }
  else
    let canOptimize := canOptimizeFor expr cb.obs
    let shouldConnect := (cb.mode &&& BindingMode.toView) != 0
    let nv := if canOptimize then newValue else expr.value
    let obs1 := if canOptimize then cb.obs else retrackObs cb.obs cb.mode expr.reads
    if jsLooseEq nv cb.value then
      { b := { cb with obs := obs1 }, evaluated := !canOptimize,
        connected := !canOptimize && shouldConnect,
        observedCollection := false, updatedOwner := none }
    else
      { b := { cb with obs := obs1, value := nv }, evaluated := !canOptimize,
        connected := !canOptimize && shouldConnect,
        observedCollection := nv.isArray, updatedOwner := some nv }

/-- The body of `ContentBinding.$bind` after the already-bound guard:
record the scope, run the expression's own `bind` hook if declared (an
external effect, not modelled beyond its occurrence), evaluate — connected
when the mode has `toView` — cache the value and observe it when it is an
array. -/
def ContentBinding.bindBody (cb : ContentBinding) (expr : SourceExpression)
    (scope : Nat) (hostScope : Option Nat) : ContentBinding :=
  let cb1 := { cb with isBound := true, scope := some scope, hostScope := hostScope }
  let shouldConnect := (cb1.mode &&& BindingMode.toView) != 0
  let obs1 := if shouldConnect then expr.reads.foldl ObserverRecord.observe cb1.obs else cb1.obs
  { cb1 with value := expr.value, obs := obs1 }

/-- Shallow embedding of `ContentBinding.$unbind`: no-op when not bound,
otherwise run the expression's `unbind` hook if declared, drop the scopes
and clear the whole observer record. -/
def ContentBinding.unbindOp (cb : ContentBinding) : ContentBinding :=
  if !cb.isBound then cb
  else { cb with isBound := false, scope := none, hostScope := none, obs := cb.obs.clear true }

/-- Shallow embedding of `ContentBinding.$bind`: when already bound to the
very same scope, return immediately; when bound to a different scope, unbind
implicitly first; then run the bind body. -/
def ContentBinding.bindOp (cb : ContentBinding) (expr : SourceExpression)
    (scope : Nat) (hostScope : Option Nat) : ContentBinding :=
  if cb.isBound then
    if cb.scope = some scope then cb
    else ContentBinding.bindBody (ContentBinding.unbindOp cb) expr scope hostScope
  else ContentBinding.bindBody cb expr scope hostScope

/-! ### Cancellable tasks (`ITask` of the kernel task queue, §4.7). -/

/-- Modelled from the spec: a queued unit of deferred work.  The payload is
the data captured by the queued callback; `canceled` is set by
`task.cancel()` before the flush, `ran` once the queue has executed it.
A canceled task's callback never runs. -/
structure TaskRec (α : Type) where
  payload : α
  reusable : Bool
  preempt : Bool
  canceled : Bool
  ran : Bool
deriving DecidableEq, Repr

/-- A task that is still waiting to run: neither canceled nor executed. -/
def taskPending {α : Type} (t : TaskRec α) : Bool := !t.canceled && !t.ran

/-- Whether the task at index `i` is still pending. -/
def taskPendingAt {α : Type} (ts : List (TaskRec α)) (i : Nat) : Bool :=
  match ts.get? i with
  | some t => taskPending t
  | none => false

/-- Indices of all still-pending tasks, in queue order. -/
def pendingIdxs {α : Type} (ts : List (TaskRec α)) : List Nat :=
  (List.range ts.length).filter (fun i => taskPendingAt ts i)

/-- `task.cancel()` on the task stored at index `i`. -/
def markCanceled {α : Type} (ts : List (TaskRec α)) (i : Nat) : List (TaskRec α) :=
  match ts.get? i with
  | some t => ts.set i { t with canceled := true }
  | none => ts

/-- `task?.cancel()` through an optional task reference. -/
def cancelOpt {α : Type} (ts : List (TaskRec α)) : Option Nat → List (TaskRec α)
  | some i => markCanceled ts i
  | none => ts

/-! ### `InterpolationBinding` and its world (`settings.ts`). -/

/-- State of an `InterpolationBinding`: bound flag, `$scope` (a `Scope`
reference, by identity), the binding mode, the target accessor's
`type` bits, the interpolation's static parts, the part bindings' cached
values (in part order) and the outstanding task reference. -/
structure InterpolationBinding where
  isBound : Bool
  scope : Option Nat
  mode : Nat
  accessorType : Nat
  staticParts : List String
  partValues : List JSVal
  task : Option Nat
deriving DecidableEq, Repr

/-- The world an `InterpolationBinding` acts on: the binding itself, every
task ever queued on its task queue (payload: the concatenated string the
callback will write), and the history of `targetObserver.setValue` calls. -/
structure InterpWorld where
  b : InterpolationBinding
  tasks : List (TaskRec String)
  targetWrites : List String
deriving DecidableEq, Repr

/-- Shallow embedding of `InterpolationBinding.updateTarget`: concatenate
the static parts with the cached part values; defer through the task queue
(with `queueTaskOptions`, queueing the new task before canceling the old
one) exactly when the flags lack `fromBind` and the accessor is
layout-affecting, write synchronously otherwise. -/
def InterpWorld.updateTarget (w : InterpWorld) (flags : Nat) : InterpWorld :=
  let result := interpResult w.b.staticParts w.b.partValues
  if (flags &&& LifecycleFlags.fromBind) = 0 ∧ 0 < (w.b.accessorType &&& AccessorType.Layout) then
    let oldTask := w.b.task
    let newId := w.tasks.length
    let tasks1 := w.tasks ++
      [{ payload := result, reusable := queueTaskOptions.reusable,
         preempt := queueTaskOptions.preempt, canceled := false, ran := false }]
    { w with b := { w.b with task := some newId }, tasks := cancelOpt tasks1 oldTask }
  else
    { w with targetWrites := w.targetWrites ++ [result] }

/-- Running the task at index `i` when it is still pending: the queued
callback sets `this.task = null` and performs the deferred
`targetObserver.setValue`.  Canceled or already-run tasks are skipped. -/
def InterpWorld.flushStep (w : InterpWorld) (i : Nat) : InterpWorld :=
  match w.tasks.get? i with
  | some t =>
      if taskPending t then
        { w with tasks := w.tasks.set i { t with ran := true },
                 b := { w.b with task := none },
                 targetWrites := w.targetWrites ++ [t.payload] }
      else w
  | none => w

/-- A task-queue flush: attempt every queued task in queue order. -/
def InterpWorld.flush (w : InterpWorld) : InterpWorld :=
  (List.range w.tasks.length).foldl InterpWorld.flushStep w

/-- The part bindings' `handleChange` calls cache new segment values before
notifying the owner; this operation stands for that value caching. -/
def InterpWorld.setParts (w : InterpWorld) (pv : List JSVal) : InterpWorld :=
  { w with b := { w.b with partValues := pv } }

/-- Shallow embedding of `InterpolationBinding.$unbind`: no-op when not
bound; otherwise drop the bound flag and scope, unbind the part bindings,
cancel the outstanding task and null the reference. -/
def InterpWorld.unbindOp (w : InterpWorld) : InterpWorld :=
  if !w.b.isBound then w
  else
    { w with tasks := cancelOpt w.tasks w.b.task,
             b := { w.b with isBound := false, scope := none, task := none } }

/-- The body of `InterpolationBinding.$bind` after the already-bound guard:
set the bound flag and scope, bind every part binding against the scope
(caching the values their expressions evaluate to, supplied here as
`partVals`), then call `updateTarget(void 0, flags)`. -/
def InterpWorld.bindBody (w : InterpWorld) (flags : Nat) (scope : Nat)
    (partVals : List JSVal) : InterpWorld :=
  let w1 := { w with b := { w.b with isBound := true, scope := some scope, partValues := partVals } }
  InterpWorld.updateTarget w1 flags

/-- Shallow embedding of `InterpolationBinding.$bind`: when already bound to
the very same scope, return immediately; when bound to a different scope,
`$unbind` implicitly first; then run the bind body. -/
def InterpWorld.bindOp (w : InterpWorld) (flags : Nat) (scope : Nat)
    (partVals : List JSVal) : InterpWorld :=
  if w.b.isBound then
    if w.b.scope = some scope then w
    else InterpWorld.bindBody (InterpWorld.unbindOp w) flags scope partVals
  else InterpWorld.bindBody w flags scope partVals

/-- The single-pending-task discipline: the pending tasks are exactly the
one the binding's `task` field references (or none). -/
def InterpInv (w : InterpWorld) : Prop :=
  pendingIdxs w.tasks = w.b.task.elim [] (fun i => [i])

/-! ### `ContentBinding2` (standalone text-node binding, `settings.ts`). -/

/-- State of a `ContentBinding2`.  As for `ContentBinding`, `mode` is
`readonly BindingMode.toView` in the source but kept as data. -/
structure CB2 where
  mode : Nat
  value : JSVal
  scope : Option Nat
  hostScope : Option Nat
  isBound : Bool
  obs : ObserverRecord
  task : Option Nat
deriving DecidableEq, Repr

/-- The world a `ContentBinding2` acts on: the binding, the tasks queued on
`platform.domWriteQueue` (payload: the captured `newValue` and flags), the
text node's `textContent`, the node currently inserted before the text
anchor (if any), the history of `textContent` assignments, and the history
of `observeCollection` calls (by array identity). -/
structure CB2World where
  b : CB2
  tasks : List (TaskRec (JSVal × Nat))
  textContent : String
  insertedNode : Option Nat
  writes : List String
  collObserved : List Nat
deriving DecidableEq, Repr

/-- Shallow embedding of `ContentBinding2.updateTarget`: null the task
reference, remove a previously inserted node if the cached value was
node-like, then either insert the new node ahead of the anchor (clearing
`textContent` first) or stringify into `textContent`; finally cache the
value. -/
def CB2World.updateTarget (w : CB2World) (value : JSVal) : CB2World :=
  let oldValue := w.b.value
  let w1 := { w with b := { w.b with task := none } }
  let w2 :=
    match oldValue with
    | JSVal.node _ => { w1 with insertedNode := none }
    | _ => w1
  let w3 :=
    match value with
    | JSVal.node i =>
        { w2 with textContent := "", insertedNode := some i, writes := w2.writes ++ [""] }
    | _ =>
        { w2 with textContent := jsToString value, writes := w2.writes ++ [jsToString value] }
  { w3 with b := { w3.b with value := value } }

/-- Shallow embedding of `ContentBinding2.handleChange`: early-out when not
bound; the same `AccessScope`/single-subscription optimization and versioned
re-tracking as `ContentBinding`; then a **strict** comparison against the
cached value; on change, cancel the outstanding task and either queue the
write (when the flags lack `fromBind`) or apply it immediately. -/
def CB2World.handleChange (w : CB2World) (expr : SourceExpression)
    (newValue : JSVal) (flags : Nat) : CB2World :=
  if !w.b.isBound then w
  else
    let cb := w.b
    let canOptimize := canOptimizeFor expr cb.obs
    let nv := if canOptimize then newValue else expr.value
    let obs1 := if canOptimize then cb.obs else retrackObs cb.obs cb.mode expr.reads
    let w1 := { w with b := { cb with obs := obs1 } }
    if nv = w1.b.value then w1
    else
      let w2 := { w1 with tasks := cancelOpt w1.tasks w1.b.task }
      if (flags &&& LifecycleFlags.fromBind) = 0 then
        { w2 with
            tasks := w2.tasks ++
              [{ payload := (nv, flags), reusable := queueTaskOptions.reusable,
                 preempt := queueTaskOptions.preempt, canceled := false, ran := false }],
            b := { w2.b with task := some w2.tasks.length } }
      else CB2World.updateTarget w2 nv

/-- Running the `domWriteQueue` task at index `i` when it is still pending:
the queued callback is `() => this.updateTarget(newValue, flags)`. -/
def CB2World.flushStep (w : CB2World) (i : Nat) : CB2World :=
  match w.tasks.get? i with
  | some t =>
      if taskPending t then
        CB2World.updateTarget { w with tasks := w.tasks.set i { t with ran := true } } t.payload.1
      else w
  | none => w

/-- A `domWriteQueue` flush: attempt every queued task in queue order. -/
def CB2World.flush (w : CB2World) : CB2World :=
  (List.range w.tasks.length).foldl CB2World.flushStep w

/-- The body of `ContentBinding2.$bind` after the already-bound guard:
record the scopes, run the expression's `bind` hook if declared, evaluate
(connected when the mode has `toView`), cache the value, observe it when it
is an array, and perform the initial `updateTarget` with the bind flags. -/
def CB2World.bindBody (w : CB2World) (expr : SourceExpression)
    (scope : Nat) (hostScope : Option Nat) : CB2World :=
  let cb := { w.b with isBound := true, scope := some scope, hostScope := hostScope }
  let shouldConnect := (cb.mode &&& BindingMode.toView) != 0
  let obs1 := if shouldConnect then expr.reads.foldl ObserverRecord.observe cb.obs else cb.obs
  let v := expr.value
  let w1 := { w with b := { cb with value := v, obs := obs1 } }
  let w2 :=
    match v with
    | JSVal.arr a => { w1 with collObserved := w1.collObserved ++ [a] }
    | _ => w1
  CB2World.updateTarget w2 v

/-- Shallow embedding of `ContentBinding2.$unbind`: no-op when not bound;
otherwise run the expression's `unbind` hook if declared, drop the scopes
and clear the whole observer record.  The source does **not** cancel the
outstanding `domWriteQueue` task here. -/
def CB2World.unbindOp (w : CB2World) : CB2World :=
  if !w.b.isBound then w
  else
    { w with b :=
        { w.b with isBound := false, scope := none, hostScope := none,
                   obs := w.b.obs.clear true } }

/-- Shallow embedding of `ContentBinding2.$bind`: when already bound to the
very same scope, return immediately; when bound to a different scope,
`$unbind` implicitly first; then run the bind body. -/
def CB2World.bindOp (w : CB2World) (expr : SourceExpression)
    (scope : Nat) (hostScope : Option Nat) : CB2World :=
  if w.b.isBound then
    if w.b.scope = some scope then w
    else CB2World.bindBody (CB2World.unbindOp w) expr scope hostScope
  else CB2World.bindBody w expr scope hostScope

/-- Single-pending-task discipline for `ContentBinding2`. -/
def CB2Inv (w : CB2World) : Prop :=
  pendingIdxs w.tasks = w.b.task.elim [] (fun i => [i])

/-! ### Two-way binding target subscriber (`binding-utils.ts`). -/

/-- The part of a two-way binding (`ITwoWayBindingImpl`) the subscriber
touches: the value its `updateSource` writes back, and the value its source
expression currently evaluates to. -/
structure TwoWayBinding where
  source : JSVal
  exprValue : JSVal
deriving DecidableEq, Repr

/-- Shallow embedding of `BindingTargetSubscriber.handleChange`
(`binding-utils.ts`): on a target observer notification, evaluate the
binding's source expression and call `updateSource(value, flags)` exactly
when the notified value differs from it by `!==`; returns the updated
binding and whether `updateSource` was invoked. -/
def BindingTargetSubscriber.handleChange (b : TwoWayBinding) (value : JSVal) :
    TwoWayBinding × Bool :=
  if jsStrictEq value b.exprValue then (b, false)
  else ({ b with source := value }, true)

/-! ### `BatchQueue` (`lifecycle.ts`). -/

/-- State of a `BatchQueue`: the queued batchables (by identity) and the
reentrancy depth.  The depth is a JS number; the source decrements it
without a lower bound, so it is modelled as an integer. -/
structure BatchQueueState where
  queue : List Nat
  depth : Int
deriving DecidableEq, Repr

/-- `BatchQueue.begin()`: increment the nesting depth. -/
def BatchQueueState.beginOp (s : BatchQueueState) : BatchQueueState :=
  { s with depth := s.depth + 1 }

/-- `BatchQueue.add(requestor)`: push onto the queue. -/
def BatchQueueState.add (s : BatchQueueState) (r : Nat) : BatchQueueState :=
  { s with queue := s.queue ++ [r] }

/-- One pass of `BatchQueue.process`: the snapshot `batch` is traversed in
order; each entry's `flushBatch` callback runs, appending whatever entries
it `add`s (given by `flushAdds`) to the live queue, which was cleared
before the pass.  Returns the queue after the pass and the invocation
trace. -/
def flushBatchRun (flushAdds : Nat → List Nat) :
    List Nat → List Nat → List Nat → List Nat × List Nat
  | [], queue, trace => (queue, trace)
  | e :: rest, queue, trace => flushBatchRun flushAdds rest (queue ++ flushAdds e) (trace ++ [e])

/-- `BatchQueue.process`: drain in passes while the queue is non-empty,
snapshotting and clearing the queue before each pass.  `fuel` bounds the
number of passes; `none` means the drain loop did not terminate within the
fuel.  On termination it returns the list of passes, each pass being the
snapshot whose entries were flushed. -/
def batchProcess (flushAdds : Nat → List Nat) : Nat → List Nat → Option (List (List Nat))
  | _, [] => some []
  | 0, _ :: _ => none
  | fuel + 1, e :: rest =>
      (batchProcess flushAdds fuel (flushBatchRun flushAdds (e :: rest) [] []).1).map
        (fun ps => (e :: rest) :: ps)

/-- `BatchQueue.end(flags?)`: decrement the depth; when it returns to zero,
process the queue.  Returns the resulting state and the flush-invocation
trace (`none` when processing does not terminate within the fuel). -/
def BatchQueueState.endOp (flushAdds : Nat → List Nat) (fuel : Nat)
    (s : BatchQueueState) : Option (BatchQueueState × List Nat) :=
  let d := s.depth - 1
  if d = 0 then
    (batchProcess flushAdds fuel s.queue).map
      (fun ps => ({ queue := [], depth := d }, ps.flatten))
  else some ({ s with depth := d }, [])

/-- `BatchQueue.inline(fn, flags?)`: `begin(); fn(); end(flags)`. -/
def BatchQueueState.inline (flushAdds : Nat → List Nat) (fuel : Nat)
    (fn : BatchQueueState → BatchQueueState) (s : BatchQueueState) :
    Option (BatchQueueState × List Nat) :=
  BatchQueueState.endOp flushAdds fuel (fn (BatchQueueState.beginOp s))

/-- The queue contents after `n` full passes, starting from `q`: each pass
replaces the queue by the concatenation of what its entries add. -/
def passSeq (flushAdds : Nat → List Nat) (q : List Nat) : Nat → List Nat
  | 0 => q
  | n + 1 => ((passSeq flushAdds q n).map flushAdds).flatten


/-! ### Derived observables and concrete sample data used by the theorems. -/

/-- The payload the next flush will write for an `InterpolationBinding`:
the payload of the task its `task` field references, when that task exists. -/
def InterpWorld.activePayload (w : InterpWorld) : List String :=
  match w.b.task with
  | some i =>
      match w.tasks.get? i with
      | some t => [t.payload]
      | none => []
  | none => []

/-- The captured `(newValue, flags)` of the task a `ContentBinding2`'s
`task` field references, when that task exists. -/
def CB2World.activePayload (w : CB2World) : List (JSVal × Nat) :=
  match w.b.task with
  | some i =>
      match w.tasks.get? i with
      | some t => [t.payload]
      | none => []
  | none => []

/-- The deferral condition exactly as claim C5 words it (for comparison with
the condition the source computes): not the initial-bind write, the mode is
not one-time, and the target accessor is layout-affecting. -/
def claimC5Defer (flags mode accessorType : Nat) : Prop :=
  (flags &&& LifecycleFlags.fromBind) = 0 ∧ mode ≠ BindingMode.oneTime
    ∧ 0 < (accessorType &&& AccessorType.Layout)

/-- A bound one-part interpolation over a layout-affecting accessor, with
no task queued yet. -/
def sampleInterpWorld : InterpWorld :=
  { b := { isBound := true, scope := some 1, mode := BindingMode.toView,
           accessorType := AccessorType.Layout, staticParts := ["a", "b"],
           partValues := [JSVal.str "X"], task := none },
    tasks := [], targetWrites := [] }

/-- A one-part interpolation like `sampleInterpWorld` but in one-time mode;
used to exercise the deferral condition. -/
def oneTimeInterpWorld : InterpWorld :=
  { b := { isBound := true, scope := some 1, mode := BindingMode.oneTime,
           accessorType := AccessorType.Layout, staticParts := ["a", "b"],
           partValues := [JSVal.str "X"], task := none },
    tasks := [], targetWrites := [] }

/-- A bare single-property source expression currently evaluating to the
string `"E"` while reading dependency `7`. -/
def sampleExpr : SourceExpression :=
  { kind := ExpressionKind.accessScope, hasBind := false, hasUnbind := false,
    value := JSVal.str "E", reads := [7] }

/-- A bound `ContentBinding2` over a text node, holding one subscription,
with no task queued yet. -/
def sampleCB2World : CB2World :=
  { b := { mode := BindingMode.toView, value := JSVal.str "a", scope := some 1,
           hostScope := none, isBound := true,
           obs := { version := 1, entries := [(7, 1)] }, task := none },
    tasks := [], textContent := "a", insertedNode := none, writes := [],
    collObserved := [] }

/-- A bound `ContentBinding` holding one subscription, cached value `"a"`. -/
def sampleContentBinding : ContentBinding :=
  { mode := BindingMode.toView, value := JSVal.str "a", scope := some 1,
    hostScope := none, isBound := true,
    obs := { version := 1, entries := [(7, 1)] } }

/-- `sampleCB2World` whose cached value is the string `"1"`; notifying it
with the number `1` separates loose from strict change detection. -/
def coerceCB2World : CB2World :=
  { sampleCB2World with b := { sampleCB2World.b with value := JSVal.str "1" },
                        textContent := "1" }
theorem interpLoop_eq_tail (vs : List JSVal) :
    ∀ (statics : List String) (acc : String),
      interpLoop acc vs statics = acc ++ interleaveTail vs statics := by
  induction vs with
  | nil => intro statics acc; simp [interpLoop, interleaveTail]
  | cons v vs ih =>
      intro statics acc
      simp only [interpLoop, interleaveTail, ih]
      simp [String.append_assoc]

theorem interleaveSpec_eq_tail (vs : List JSVal) :
    ∀ (s : String) (ss : List String), ss.length = vs.length →
      interleaveSpec (s :: ss) vs = s ++ interleaveTail vs ss := by
  induction vs with
  | nil => intro s ss _; simp [interleaveSpec, interleaveTail]
  | cons v vs ih =>
      intro s ss hlen
      cases ss with
      | nil => simp at hlen
      | cons s1 ss =>
          simp only [List.length_cons, Nat.succ.injEq] at hlen
          simp only [interleaveSpec, interleaveTail, ih s1 ss hlen]
          simp [String.append_assoc, List.headD, List.tail]

/-- The loop form and the spec interleaving agree whenever the static part
list is one longer than the value list (the invariant the template compiler
establishes for every `Interpolation`). -/
theorem interpResult_eq_interleave (staticParts : List String) (partValues : List JSVal)
    (hlen : staticParts.length = partValues.length + 1) :
    interpResult staticParts partValues = interleaveSpec staticParts partValues := by
  cases staticParts with
  | nil => simp at hlen
  | cons s0 ss =>
      simp only [List.length_cons, Nat.succ.injEq] at hlen
      by_cases h1 : partValues.length = 1
      · match partValues, h1 with
        | [v], _ =>
            match ss, hlen with
            | [s1], _ =>
                simp [interpResult, interleaveSpec, String.append_assoc]
      · simp only [interpResult, h1, if_false]
        rw [interpLoop_eq_tail, interleaveSpec_eq_tail partValues s0 ss hlen]
        simp [List.getD, List.tail]

/-! ### Bookkeeping lemmas for the task-queue discipline. -/

theorem taskPendingAt_lt_length {α : Type} {ts : List (TaskRec α)} {i : Nat}
    (h : taskPendingAt ts i = true) : i < ts.length := by
  unfold taskPendingAt at h
  cases hg : ts.get? i with
  | none => rw [hg] at h; simp at h
  | some t => exact (List.get?_eq_some.mp hg).1

theorem taskPendingAt_oob {α : Type} (ts : List (TaskRec α)) (i : Nat)
    (h : ts.length ≤ i) : taskPendingAt ts i = false := by
  unfold taskPendingAt
  rw [List.get?_eq_none.mpr h]

theorem taskPendingAt_append_lt {α : Type} (ts : List (TaskRec α)) (t : TaskRec α)
    (i : Nat) (h : i < ts.length) : taskPendingAt (ts ++ [t]) i = taskPendingAt ts i := by
  unfold taskPendingAt
  rw [List.get?_append h]

theorem taskPendingAt_append_len {α : Type} (ts : List (TaskRec α)) (t : TaskRec α) :
    taskPendingAt (ts ++ [t]) ts.length = taskPending t := by
  unfold taskPendingAt
  have : (ts ++ [t]).get? ts.length = some t := by
    simp [List.get?_eq_getElem?]
  rw [this]

theorem length_markCanceled {α : Type} (ts : List (TaskRec α)) (i : Nat) :
    (markCanceled ts i).length = ts.length := by
  unfold markCanceled
  cases ts.get? i <;> simp

theorem taskPendingAt_markCanceled_self {α : Type} (ts : List (TaskRec α)) (i : Nat) :
    taskPendingAt (markCanceled ts i) i = false := by
  unfold markCanceled
  cases hg : ts.get? i with
  | none => unfold taskPendingAt; rw [hg]
  | some t =>
      have hi : i < ts.length := (List.get?_eq_some.mp hg).1
      unfold taskPendingAt
      rw [List.get?_set_eq_of_lt _ hi]
      simp [taskPending]

theorem taskPendingAt_markCanceled_ne {α : Type} (ts : List (TaskRec α)) (i j : Nat)
    (h : j ≠ i) : taskPendingAt (markCanceled ts i) j = taskPendingAt ts j := by
  unfold markCanceled
  cases hg : ts.get? i with
  | none => rfl
  | some t =>
      unfold taskPendingAt
      rw [List.get?_set_ne _ _ (fun he => h he.symm)]

theorem mem_pendingIdxs {α : Type} (ts : List (TaskRec α)) (i : Nat) :
    i ∈ pendingIdxs ts ↔ taskPendingAt ts i = true := by
  unfold pendingIdxs
  rw [List.mem_filter, List.mem_range]
  constructor
  · exact fun h => h.2
  · exact fun h => ⟨taskPendingAt_lt_length h, h⟩

theorem pendingIdxs_eq_nil {α : Type} (ts : List (TaskRec α))
    (h : ∀ j, taskPendingAt ts j = false) : pendingIdxs ts = [] := by
  apply List.eq_nil_iff_forall_not_mem.mpr
  intro j hj
  rw [mem_pendingIdxs] at hj
  rw [h j] at hj
  exact Bool.noConfusion hj

theorem range_filter_beq_singleton (i : Nat) :
    ∀ (n : Nat), i < n → (List.range n).filter (fun j => j == i) = [i] := by
  intro n
  induction n with
  | zero => intro h; omega
  | succ n ih =>
      intro h
      rw [List.range_succ, List.filter_append]
      by_cases hi : i = n
      · subst hi
        have h0 : (List.range i).filter (fun j => j == i) = [] := by
          apply List.filter_eq_nil_iff.mpr
          intro a ha
          simp only [List.mem_range] at ha
          simp only [beq_iff_eq]
          omega
        simp [h0]
      · have h' : i < n := by omega
        rw [ih h']
        simp [hi, Ne.symm hi]

theorem pendingIdxs_eq_singleton {α : Type} (ts : List (TaskRec α)) (i : Nat)
    (hi : taskPendingAt ts i = true)
    (ho : ∀ j, j ≠ i → taskPendingAt ts j = false) : pendingIdxs ts = [i] := by
  have hlen := taskPendingAt_lt_length hi
  unfold pendingIdxs
  have hcong : ∀ j ∈ List.range ts.length,
      taskPendingAt ts j = (fun j => j == i) j := by
    intro j _
    by_cases hj : j = i
    · subst hj; simp [hi]
    · simp [ho j hj, hj]
  rw [List.filter_congr hcong]
  exact range_filter_beq_singleton i ts.length hlen

theorem singlePending_none {α : Type} {ts : List (TaskRec α)}
    (h : pendingIdxs ts = []) : ∀ j, taskPendingAt ts j = false := by
  intro j
  by_contra hj
  have hj' : taskPendingAt ts j = true := by
    cases hx : taskPendingAt ts j
    · exact absurd hx hj
    · rfl
  have := (mem_pendingIdxs ts j).mpr hj'
  rw [h] at this
  simp at this

theorem singlePending_some {α : Type} {ts : List (TaskRec α)} {i : Nat}
    (h : pendingIdxs ts = [i]) :
    taskPendingAt ts i = true ∧ ∀ j, j ≠ i → taskPendingAt ts j = false := by
  constructor
  · have : i ∈ pendingIdxs ts := by rw [h]; simp
    exact (mem_pendingIdxs ts i).mp this
  · intro j hj
    by_contra hjp
    have hj' : taskPendingAt ts j = true := by
      cases hx : taskPendingAt ts j
      · exact absurd hx hjp
      · rfl
    have := (mem_pendingIdxs ts j).mpr hj'
    rw [h] at this
    simp at this
    exact hj this

theorem interpFlushStep_skip (w : InterpWorld) (i : Nat)
    (h : taskPendingAt w.tasks i = false) : w.flushStep i = w := by
  unfold InterpWorld.flushStep
  unfold taskPendingAt at h
  cases hg : w.tasks.get? i with
  | none => rfl
  | some t =>
      rw [hg] at h
      simp only [] at h
      simp [h]

theorem interpFoldl_skip (w : InterpWorld)
    (h : ∀ j, taskPendingAt w.tasks j = false) :
    ∀ L : List Nat, L.foldl InterpWorld.flushStep w = w := by
  intro L
  induction L with
  | nil => rfl
  | cons j L ih =>
      rw [List.foldl_cons, interpFlushStep_skip w j (h j), ih]

theorem interpFlushStep_fire (w : InterpWorld) (i : Nat) (t : TaskRec String)
    (hg : w.tasks.get? i = some t) (hp : taskPending t = true) :
    w.flushStep i = { w with tasks := w.tasks.set i { t with ran := true },
                             b := { w.b with task := none },
                             targetWrites := w.targetWrites ++ [t.payload] } := by
  unfold InterpWorld.flushStep
  rw [hg]
  simp [hp]

theorem fired_not_pending {α : Type} (ts : List (TaskRec α)) (i : Nat) (t : TaskRec α)
    (hg : ts.get? i = some t)
    (hsingle : ∀ j, j ≠ i → taskPendingAt ts j = false) :
    ∀ j, taskPendingAt (ts.set i { t with ran := true }) j = false := by
  intro j
  by_cases hj : j = i
  · subst hj
    unfold taskPendingAt
    rw [List.get?_set_eq_of_lt _ (List.get?_eq_some.mp hg).1]
    simp [taskPending]
  · unfold taskPendingAt
    rw [List.get?_set_ne _ _ (fun he => hj he.symm)]
    exact hsingle j hj

theorem interpFoldl_single (w : InterpWorld) (i : Nat) (t : TaskRec String)
    (hg : w.tasks.get? i = some t) (hp : taskPending t = true)
    (hsingle : ∀ j, j ≠ i → taskPendingAt w.tasks j = false) :
    ∀ L : List Nat, L.foldl InterpWorld.flushStep w =
      if i ∈ L then w.flushStep i else w := by
  intro L
  induction L with
  | nil => simp
  | cons j L ih =>
      rw [List.foldl_cons]
      by_cases hj : j = i
      · subst hj
        have hfire := interpFlushStep_fire w j t hg hp
        rw [hfire]
        rw [interpFoldl_skip _ (fired_not_pending w.tasks j t hg hsingle) L]
        rw [if_pos (List.mem_cons_self j L)]
      · rw [interpFlushStep_skip w j (hsingle j hj)]
        rw [ih]
        simp [Ne.symm hj, hj]

theorem interpFlush_spec (w : InterpWorld) (h : InterpInv w) :
    (w.flush).targetWrites = w.targetWrites ++ w.activePayload
    ∧ InterpInv w.flush ∧ (w.flush).b.task = none
    ∧ (w.flush).b.isBound = w.b.isBound ∧ (w.flush).b.scope = w.b.scope := by
  unfold InterpWorld.flush
  cases ht : w.b.task with
  | none =>
      have hnil : pendingIdxs w.tasks = [] := by
        unfold InterpInv at h; rw [ht] at h; exact h
      rw [interpFoldl_skip w (singlePending_none hnil)]
      simp [InterpWorld.activePayload, ht, InterpInv, hnil]
  | some i =>
      have hsing : pendingIdxs w.tasks = [i] := by
        unfold InterpInv at h; rw [ht] at h; exact h
      obtain ⟨hip, hothers⟩ := singlePending_some hsing
      have hex : ∃ t, w.tasks.get? i = some t ∧ taskPending t = true := by
        unfold taskPendingAt at hip
        cases hg : w.tasks.get? i with
        | none => rw [hg] at hip; simp at hip
        | some t => rw [hg] at hip; exact ⟨t, rfl, hip⟩
      obtain ⟨t, hg, hp⟩ := hex
      have hmem : i ∈ List.range w.tasks.length := by
        rw [List.mem_range]; exact (List.get?_eq_some.mp hg).1
      rw [interpFoldl_single w i t hg hp hothers, if_pos hmem,
          interpFlushStep_fire w i t hg hp]
      refine ⟨?_, ?_, rfl, rfl, rfl⟩
      · simp only [InterpWorld.activePayload, ht, hg]
      · unfold InterpInv
        simp only []
        exact pendingIdxs_eq_nil _ (fired_not_pending w.tasks i t hg hothers)

theorem interpUpdate_imm (w : InterpWorld) (flags : Nat)
    (h : ¬((flags &&& LifecycleFlags.fromBind) = 0
        ∧ 0 < (w.b.accessorType &&& AccessorType.Layout))) :
    w.updateTarget flags =
      { w with targetWrites :=
          w.targetWrites ++ [interpResult w.b.staticParts w.b.partValues] } := by
  unfold InterpWorld.updateTarget
  rw [if_neg h]

theorem interpUpdate_queue (w : InterpWorld) (flags : Nat) (h : InterpInv w)
    (hc : (flags &&& LifecycleFlags.fromBind) = 0
        ∧ 0 < (w.b.accessorType &&& AccessorType.Layout)) :
    (w.updateTarget flags).b.task = some w.tasks.length
    ∧ (w.updateTarget flags).tasks.get? w.tasks.length =
        some { payload := interpResult w.b.staticParts w.b.partValues,
               reusable := false, preempt := true, canceled := false, ran := false }
    ∧ InterpInv (w.updateTarget flags)
    ∧ (w.updateTarget flags).targetWrites = w.targetWrites
    ∧ (∀ k, w.b.task = some k → taskPendingAt (w.updateTarget flags).tasks k = false)
    ∧ (w.updateTarget flags).b.staticParts = w.b.staticParts
    ∧ (w.updateTarget flags).b.partValues = w.b.partValues
    ∧ (w.updateTarget flags).b.isBound = w.b.isBound
    ∧ (w.updateTarget flags).b.scope = w.b.scope
    ∧ (w.updateTarget flags).b.accessorType = w.b.accessorType := by
  unfold InterpWorld.updateTarget
  rw [if_pos hc]
  set fresh : TaskRec String :=
    { payload := interpResult w.b.staticParts w.b.partValues,
      reusable := queueTaskOptions.reusable, preempt := queueTaskOptions.preempt,
      canceled := false, ran := false } with hfresh
  have hfreshpending : taskPending fresh = true := by simp [taskPending, hfresh]
  have hlen : ∀ ts2 : List (TaskRec String), ts2 = cancelOpt (w.tasks ++ [fresh]) w.b.task →
      ts2.length = w.tasks.length + 1 := by
    intro ts2 hts2
    cases htk : w.b.task with
    | none => subst hts2; rw [htk]; simp [cancelOpt]
    | some k =>
        subst hts2; rw [htk]
        simp [cancelOpt, length_markCanceled]
  cases htk : w.b.task with
  | none =>
      have hnone : ∀ j, taskPendingAt w.tasks j = false := by
        apply singlePending_none
        unfold InterpInv at h; rw [htk] at h; exact h
      have hat : ∀ j, j ≠ w.tasks.length →
          taskPendingAt (w.tasks ++ [fresh]) j = false := by
        intro j hj
        rcases Nat.lt_or_ge j w.tasks.length with hlt | hge
        · rw [taskPendingAt_append_lt _ _ _ hlt]; exact hnone j
        · apply taskPendingAt_oob
          simp only [List.length_append, List.length_cons, List.length_nil]
          omega
      refine ⟨rfl, ?_, ?_, rfl, ?_, rfl, rfl, rfl, rfl, rfl⟩
      · show (cancelOpt (w.tasks ++ [fresh]) none).get? w.tasks.length = _
        simp only [cancelOpt]
        simp [List.get?_eq_getElem?, hfresh, queueTaskOptions]
      · show pendingIdxs (cancelOpt (w.tasks ++ [fresh]) none) = [w.tasks.length]
        simp only [cancelOpt]
        apply pendingIdxs_eq_singleton
        · rw [taskPendingAt_append_len]; exact hfreshpending
        · exact hat
      · intro q hq; exact Option.noConfusion hq
  | some k =>
      obtain ⟨hkp, hothers⟩ := singlePending_some (by
        unfold InterpInv at h; rw [htk] at h; exact h)
      have hklt : k < w.tasks.length := taskPendingAt_lt_length hkp
      have hkne : k ≠ w.tasks.length := by omega
      have hextk : ∃ tk, w.tasks.get? k = some tk := by
        unfold taskPendingAt at hkp
        cases hgk : w.tasks.get? k with
        | none => rw [hgk] at hkp; simp at hkp
        | some tk => exact ⟨tk, rfl⟩
      obtain ⟨tk, hgtk⟩ := hextk
      have hgk : (w.tasks ++ [fresh]).get? k = some tk := by
        rw [List.get?_append hklt]; exact hgtk
      have hmc : markCanceled (w.tasks ++ [fresh]) k =
          (w.tasks ++ [fresh]).set k { tk with canceled := true } := by
        unfold markCanceled; rw [hgk]
      have hpendlen : taskPendingAt (markCanceled (w.tasks ++ [fresh]) k) w.tasks.length
          = true := by
        rw [taskPendingAt_markCanceled_ne _ _ _ (Ne.symm hkne),
            taskPendingAt_append_len]
        exact hfreshpending
      have hpendothers : ∀ j, j ≠ w.tasks.length →
          taskPendingAt (markCanceled (w.tasks ++ [fresh]) k) j = false := by
        intro j hj
        by_cases hjk : j = k
        · subst hjk; exact taskPendingAt_markCanceled_self _ _
        · rw [taskPendingAt_markCanceled_ne _ _ _ hjk]
          rcases Nat.lt_or_ge j w.tasks.length with hlt | hge
          · rw [taskPendingAt_append_lt _ _ _ hlt]; exact hothers j hjk
          · apply taskPendingAt_oob
            simp only [List.length_append, List.length_cons, List.length_nil]
            omega
      refine ⟨rfl, ?_, ?_, rfl, ?_, rfl, rfl, rfl, rfl, rfl⟩
      · show (cancelOpt (w.tasks ++ [fresh]) (some k)).get? w.tasks.length = _
        simp only [cancelOpt]
        rw [hmc, List.get?_set_ne _ _ hkne]
        simp [List.get?_eq_getElem?, hfresh, queueTaskOptions]
      · show pendingIdxs (cancelOpt (w.tasks ++ [fresh]) (some k)) = [w.tasks.length]
        simp only [cancelOpt]
        exact pendingIdxs_eq_singleton _ _ hpendlen hpendothers
      · intro q hq
        have he : k = q := by injection hq
        subst he
        show taskPendingAt (cancelOpt (w.tasks ++ [fresh]) (some k)) k = false
        simp only [cancelOpt]
        exact taskPendingAt_markCanceled_self _ _

theorem interpUnbind_spec (w : InterpWorld) (h : InterpInv w) (hb : w.b.isBound = true) :
    (w.unbindOp).b.task = none ∧ InterpInv w.unbindOp
    ∧ (∀ j, taskPendingAt (w.unbindOp).tasks j = false)
    ∧ (w.unbindOp).targetWrites = w.targetWrites
    ∧ ((w.unbindOp).flush).targetWrites = w.targetWrites := by
  have hu : w.unbindOp =
      { w with tasks := cancelOpt w.tasks w.b.task,
               b := { w.b with isBound := false, scope := none, task := none } } := by
    unfold InterpWorld.unbindOp
    rw [hb]
    rfl
  have hpend : ∀ j, taskPendingAt (cancelOpt w.tasks w.b.task) j = false := by
    intro j
    cases htk : w.b.task with
    | none =>
        have hnil : pendingIdxs w.tasks = [] := by
          unfold InterpInv at h; rw [htk] at h; exact h
        simp only [cancelOpt]
        exact singlePending_none hnil j
    | some k =>
        obtain ⟨hkp, hothers⟩ := @singlePending_some _ w.tasks k (by
          unfold InterpInv at h; rw [htk] at h; exact h)
        simp only [cancelOpt]
        by_cases hj : j = k
        · subst hj; exact taskPendingAt_markCanceled_self _ _
        · rw [taskPendingAt_markCanceled_ne _ _ _ hj]
          exact hothers j hj
  have hinv : InterpInv w.unbindOp := by
    rw [hu]
    show pendingIdxs (cancelOpt w.tasks w.b.task) = (Option.none).elim [] (fun i => [i])
    simp only [Option.elim]
    exact pendingIdxs_eq_nil _ hpend
  refine ⟨by rw [hu], hinv, by rw [hu]; exact hpend, by rw [hu], ?_⟩
  obtain ⟨hw, _, _, _, _⟩ := interpFlush_spec w.unbindOp hinv
  rw [hw]
  have htask : (w.unbindOp).b.task = none := by rw [hu]
  simp [InterpWorld.activePayload, htask, hu]

theorem cb2Update_facts (w : CB2World) (v : JSVal) :
    (w.updateTarget v).tasks = w.tasks
    ∧ (w.updateTarget v).b.task = none
    ∧ (w.updateTarget v).b.value = v
    ∧ (w.updateTarget v).b.isBound = w.b.isBound
    ∧ (w.updateTarget v).b.obs = w.b.obs
    ∧ (w.updateTarget v).b.scope = w.b.scope
    ∧ (w.updateTarget v).writes =
        w.writes ++ [if v.isNode then "" else jsToString v]
    ∧ (w.updateTarget v).textContent = (if v.isNode then "" else jsToString v) := by
  unfold CB2World.updateTarget
  cases w.b.value <;> cases v <;> simp [JSVal.isNode]

theorem cb2FlushStep_skip (w : CB2World) (i : Nat)
    (h : taskPendingAt w.tasks i = false) : w.flushStep i = w := by
  unfold CB2World.flushStep
  unfold taskPendingAt at h
  cases hg : w.tasks.get? i with
  | none => rfl
  | some t =>
      rw [hg] at h
      simp only [] at h
      simp [h]

theorem cb2Foldl_skip (w : CB2World)
    (h : ∀ j, taskPendingAt w.tasks j = false) :
    ∀ L : List Nat, L.foldl CB2World.flushStep w = w := by
  intro L
  induction L with
  | nil => rfl
  | cons j L ih =>
      rw [List.foldl_cons, cb2FlushStep_skip w j (h j), ih]

theorem cb2FlushStep_fire (w : CB2World) (i : Nat) (t : TaskRec (JSVal × Nat))
    (hg : w.tasks.get? i = some t) (hp : taskPending t = true) :
    w.flushStep i =
      CB2World.updateTarget { w with tasks := w.tasks.set i { t with ran := true } }
        t.payload.1 := by
  unfold CB2World.flushStep
  rw [hg]
  simp [hp]

theorem cb2Foldl_single (w : CB2World) (i : Nat) (t : TaskRec (JSVal × Nat))
    (hg : w.tasks.get? i = some t) (hp : taskPending t = true)
    (hsingle : ∀ j, j ≠ i → taskPendingAt w.tasks j = false) :
    ∀ L : List Nat, L.foldl CB2World.flushStep w =
      if i ∈ L then w.flushStep i else w := by
  intro L
  induction L with
  | nil => simp
  | cons j L ih =>
      rw [List.foldl_cons]
      by_cases hj : j = i
      · subst hj
        have hfire := cb2FlushStep_fire w j t hg hp
        rw [hfire]
        have htasks : (CB2World.updateTarget
            { w with tasks := w.tasks.set j { t with ran := true } } t.payload.1).tasks
            = w.tasks.set j { t with ran := true } :=
          (cb2Update_facts _ _).1
        have hnp : ∀ q, taskPendingAt (CB2World.updateTarget
            { w with tasks := w.tasks.set j { t with ran := true } } t.payload.1).tasks q
            = false := by
          intro q
          rw [htasks]
          exact fired_not_pending w.tasks j t hg hsingle q
        rw [cb2Foldl_skip _ hnp L]
        rw [if_pos (List.mem_cons_self j L)]
      · rw [cb2FlushStep_skip w j (hsingle j hj)]
        rw [ih]
        simp [Ne.symm hj, hj]

theorem cb2Flush_spec (w : CB2World) (h : CB2Inv w) :
    ((w.flush).writes = w.writes ++
        (w.activePayload.map (fun p => if p.1.isNode then "" else jsToString p.1)))
    ∧ CB2Inv w.flush ∧ (w.flush).b.task = w.b.task.elim none (fun _ => none)
    ∧ ((w.flush).textContent =
        (w.activePayload.map (fun p => if p.1.isNode then "" else jsToString p.1)).headD
          w.textContent) := by
  unfold CB2World.flush
  cases ht : w.b.task with
  | none =>
      have hnil : pendingIdxs w.tasks = [] := by
        unfold CB2Inv at h; rw [ht] at h; exact h
      rw [cb2Foldl_skip w (singlePending_none hnil)]
      simp [CB2World.activePayload, ht, CB2Inv, hnil]
  | some i =>
      have hsing : pendingIdxs w.tasks = [i] := by
        unfold CB2Inv at h; rw [ht] at h; exact h
      obtain ⟨hip, hothers⟩ := singlePending_some hsing
      have hex : ∃ t, w.tasks.get? i = some t ∧ taskPending t = true := by
        unfold taskPendingAt at hip
        cases hg : w.tasks.get? i with
        | none => rw [hg] at hip; simp at hip
        | some t => rw [hg] at hip; exact ⟨t, rfl, hip⟩
      obtain ⟨t, hg, hp⟩ := hex
      have hmem : i ∈ List.range w.tasks.length := by
        rw [List.mem_range]; exact (List.get?_eq_some.mp hg).1
      rw [cb2Foldl_single w i t hg hp hothers, if_pos hmem,
          cb2FlushStep_fire w i t hg hp]
      have hfacts := cb2Update_facts
        { w with tasks := w.tasks.set i { t with ran := true } } t.payload.1
      have hap : w.activePayload = [t.payload] := by
        simp only [CB2World.activePayload, ht, hg]
      refine ⟨?_, ?_, ?_, ?_⟩
      · rw [hfacts.2.2.2.2.2.2.1, hap]
        simp
      · show pendingIdxs _ = _
        rw [hfacts.1, hfacts.2.1]
        simp only [Option.elim]
        exact pendingIdxs_eq_nil _ (fired_not_pending w.tasks i t hg hothers)
      · rw [hfacts.2.1]
        simp [ht]
      · rw [hfacts.2.2.2.2.2.2.2, hap]
        simp

theorem length_cancelOpt {α : Type} (ts : List (TaskRec α)) (o : Option Nat) :
    (cancelOpt ts o).length = ts.length := by
  cases o with
  | none => rfl
  | some i => simp only [cancelOpt]; exact length_markCanceled ts i

theorem cb2Handle_unbound (w : CB2World) (expr : SourceExpression) (nv : JSVal)
    (flags : Nat) (hb : w.b.isBound = false) :
    w.handleChange expr nv flags = w := by
  unfold CB2World.handleChange
  rw [hb]
  rfl

theorem cb2Handle_unchanged (w : CB2World) (expr : SourceExpression) (nv : JSVal)
    (flags : Nat) (hb : w.b.isBound = true)
    (heq : (if canOptimizeFor expr w.b.obs then nv else expr.value) = w.b.value) :
    w.handleChange expr nv flags =
      { w with b := { w.b with obs :=
          (if canOptimizeFor expr w.b.obs then w.b.obs
           else retrackObs w.b.obs w.b.mode expr.reads) } } := by
  unfold CB2World.handleChange
  rw [hb]
  by_cases hco : canOptimizeFor expr w.b.obs
  · simp only [hco, if_true] at heq
    simp [hco, heq]
  · simp only [Bool.not_eq_true] at hco
    rw [hco] at heq
    simp only [Bool.false_eq_true, if_false] at heq
    simp [hco, heq]

theorem cb2Handle_red (w : CB2World) (expr : SourceExpression) (nv0 : JSVal) (flags : Nat)
    (hb : w.b.isBound = true)
    (hne : ¬((if canOptimizeFor expr w.b.obs then nv0 else expr.value) = w.b.value))
    (hflags : (flags &&& LifecycleFlags.fromBind) = 0) :
    w.handleChange expr nv0 flags =
      { w with
          tasks := cancelOpt w.tasks w.b.task ++
            [{ payload := ((if canOptimizeFor expr w.b.obs then nv0 else expr.value), flags),
               reusable := false, preempt := true, canceled := false, ran := false }],
          b := { w.b with
                 obs := if canOptimizeFor expr w.b.obs then w.b.obs
                        else retrackObs w.b.obs w.b.mode expr.reads,
                 task := some (cancelOpt w.tasks w.b.task).length } } := by
  unfold CB2World.handleChange
  rw [hb]
  by_cases hco : canOptimizeFor expr w.b.obs
  · simp only [hco, if_true] at hne
    simp [hco, hne, hflags, queueTaskOptions]
  · simp only [Bool.not_eq_true] at hco
    rw [hco] at hne
    simp only [Bool.false_eq_true, if_false] at hne
    simp [hco, hne, hflags, queueTaskOptions]

theorem cancelOpt_pending_none {α : Type} (ts : List (TaskRec α)) (o : Option Nat)
    (h : pendingIdxs ts = o.elim [] (fun i => [i])) :
    ∀ j, taskPendingAt (cancelOpt ts o) j = false := by
  intro j
  cases o with
  | none =>
      simp only [Option.elim] at h
      simp only [cancelOpt]
      exact singlePending_none h j
  | some k =>
      simp only [Option.elim] at h
      obtain ⟨hkp, hothers⟩ := singlePending_some h
      simp only [cancelOpt]
      by_cases hj : j = k
      · subst hj; exact taskPendingAt_markCanceled_self _ _
      · rw [taskPendingAt_markCanceled_ne _ _ _ hj]
        exact hothers j hj

theorem cb2Handle_queue (w : CB2World) (expr : SourceExpression) (nv0 : JSVal)
    (flags : Nat) (h : CB2Inv w) (hb : w.b.isBound = true)
    (hflags : (flags &&& LifecycleFlags.fromBind) = 0)
    (hne : ¬((if canOptimizeFor expr w.b.obs then nv0 else expr.value) = w.b.value)) :
    (w.handleChange expr nv0 flags).b.task = some w.tasks.length
    ∧ (w.handleChange expr nv0 flags).tasks.get? w.tasks.length =
        some { payload := ((if canOptimizeFor expr w.b.obs then nv0 else expr.value), flags),
               reusable := false, preempt := true, canceled := false, ran := false }
    ∧ CB2Inv (w.handleChange expr nv0 flags)
    ∧ (w.handleChange expr nv0 flags).writes = w.writes
    ∧ (w.handleChange expr nv0 flags).textContent = w.textContent
    ∧ (∀ k, w.b.task = some k →
        taskPendingAt (w.handleChange expr nv0 flags).tasks k = false)
    ∧ (w.handleChange expr nv0 flags).b.value = w.b.value
    ∧ (w.handleChange expr nv0 flags).b.isBound = true
    ∧ (w.handleChange expr nv0 flags).tasks.length = w.tasks.length + 1 := by
  have hred := cb2Handle_red w expr nv0 flags hb hne hflags
  set used := (if canOptimizeFor expr w.b.obs then nv0 else expr.value) with hused
  set fresh : TaskRec (JSVal × Nat) :=
    { payload := (used, flags), reusable := false, preempt := true,
      canceled := false, ran := false } with hfresh
  have hclen : (cancelOpt w.tasks w.b.task).length = w.tasks.length :=
    length_cancelOpt w.tasks w.b.task
  have hcpend : ∀ j, taskPendingAt (cancelOpt w.tasks w.b.task) j = false :=
    cancelOpt_pending_none w.tasks w.b.task h
  have hat : ∀ j, j ≠ w.tasks.length →
      taskPendingAt (cancelOpt w.tasks w.b.task ++ [fresh]) j = false := by
    intro j hj
    rcases Nat.lt_or_ge j w.tasks.length with hlt | hge
    · rw [taskPendingAt_append_lt _ _ _ (by rw [hclen]; exact hlt)]
      exact hcpend j
    · apply taskPendingAt_oob
      simp only [List.length_append, List.length_cons, List.length_nil, hclen]
      omega
  have hpendlen : taskPendingAt (cancelOpt w.tasks w.b.task ++ [fresh]) w.tasks.length
      = true := by
    have := taskPendingAt_append_len (cancelOpt w.tasks w.b.task) fresh
    rw [hclen] at this
    rw [this]
    simp [taskPending, hfresh]
  rw [hred]
  refine ⟨by simp [hclen], ?_, ?_, rfl, rfl, ?_, rfl, hb, by simp [hclen]⟩
  · show (cancelOpt w.tasks w.b.task ++ [fresh]).get? w.tasks.length = some fresh
    rw [← hclen]
    simp [List.get?_eq_getElem?]
  · show pendingIdxs (cancelOpt w.tasks w.b.task ++ [fresh]) =
      (some (cancelOpt w.tasks w.b.task).length).elim [] (fun i => [i])
    simp only [Option.elim, hclen]
    exact pendingIdxs_eq_singleton _ _ hpendlen hat
  · intro k hk
    show taskPendingAt (cancelOpt w.tasks w.b.task ++ [fresh]) k = false
    apply hat
    unfold CB2Inv at h
    rw [hk] at h
    simp only [Option.elim] at h
    have := (singlePending_some h).1
    have hklt := taskPendingAt_lt_length this
    omega

theorem cb2Unbind_facts (w : CB2World) (hb : w.b.isBound = true) :
    (w.unbindOp).tasks = w.tasks
    ∧ (w.unbindOp).b.task = w.b.task
    ∧ (w.unbindOp).b.isBound = false
    ∧ (w.unbindOp).writes = w.writes
    ∧ (w.unbindOp).textContent = w.textContent
    ∧ (w.unbindOp).b.value = w.b.value
    ∧ (w.unbindOp).b.obs = w.b.obs.clear true := by
  unfold CB2World.unbindOp
  rw [hb]
  exact ⟨rfl, rfl, rfl, rfl, rfl, rfl, rfl⟩

theorem observe_version (r : ObserverRecord) (o : Nat) :
    (r.observe o).version = r.version := by
  unfold ObserverRecord.observe
  split <;> rfl

theorem foldl_observe_version (reads : List Nat) :
    ∀ r : ObserverRecord, (reads.foldl ObserverRecord.observe r).version = r.version := by
  induction reads with
  | nil => intro r; rfl
  | cons o os ih =>
      intro r
      rw [List.foldl_cons, ih, observe_version]

theorem clear_false_version (r : ObserverRecord) : (r.clear false).version = r.version := by
  unfold ObserverRecord.clear
  rfl

theorem clear_false_entries (r : ObserverRecord) :
    ∀ e ∈ (r.clear false).entries, e.2 = r.version := by
  unfold ObserverRecord.clear
  simp only [Bool.false_eq_true, if_false]
  intro e he
  have := (List.mem_filter.mp he).2
  exact beq_iff_eq.mp this

theorem retrackObs_toView_version (obs : ObserverRecord) (reads : List Nat) :
    (retrackObs obs BindingMode.toView reads).version = obs.version + 1 := by
  unfold retrackObs
  have hsc : ((BindingMode.toView &&& BindingMode.toView) != 0) = true := by decide
  rw [hsc]
  simp only [if_true]
  rw [clear_false_version, foldl_observe_version]

theorem retrackObs_toView_entries (obs : ObserverRecord) (reads : List Nat) :
    ∀ e ∈ (retrackObs obs BindingMode.toView reads).entries, e.2 = obs.version + 1 := by
  unfold retrackObs
  have hsc : ((BindingMode.toView &&& BindingMode.toView) != 0) = true := by decide
  rw [hsc]
  simp only [if_true]
  intro e he
  have := clear_false_entries _ e he
  rw [foldl_observe_version] at this
  exact this

theorem get_after_cancel_append {α : Type} (ts : List (TaskRec α)) (o : Option Nat)
    (f : TaskRec α) :
    ∃ t, (cancelOpt (ts ++ [f]) o).get? ts.length = some t
      ∧ t.payload = f.payload ∧ t.reusable = f.reusable ∧ t.preempt = f.preempt := by
  have hgf : (ts ++ [f]).get? ts.length = some f := by
    simp [List.get?_eq_getElem?]
  cases o with
  | none => exact ⟨f, hgf, rfl, rfl, rfl⟩
  | some k =>
      simp only [cancelOpt]
      unfold markCanceled
      cases hg : (ts ++ [f]).get? k with
      | none => exact ⟨f, hgf, rfl, rfl, rfl⟩
      | some x =>
          by_cases hk : k = ts.length
          · subst hk
            rw [hgf] at hg
            injection hg with hx
            subst hx
            refine ⟨{ f with canceled := true }, ?_, rfl, rfl, rfl⟩
            rw [List.get?_set_eq_of_lt _ (List.get?_eq_some.mp hgf).1]
          · refine ⟨f, ?_, rfl, rfl, rfl⟩
            rw [List.get?_set_ne _ _ hk]
            exact hgf

/-- Claim C1: for an interpolation with static parts `S0..Sk` and cached
part values `v0..v(k-1)`, `InterpolationBinding.updateTarget` computes
exactly the interleaved concatenation `S0 + v0 + S1 + ... + Sk` and writes
it to the target (directly, or as the payload of the queued task), and the
single-part case equals `staticParts[0] + value + staticParts[1]`. -/
theorem claim_C1_interpolation_concat (w : InterpWorld) (flags : Nat)
    (hlen : w.b.staticParts.length = w.b.partValues.length + 1) :
    interpResult w.b.staticParts w.b.partValues
        = interleaveSpec w.b.staticParts w.b.partValues
    ∧ ((w.updateTarget flags).targetWrites =
          w.targetWrites ++ [interleaveSpec w.b.staticParts w.b.partValues]
        ∧ (w.updateTarget flags).tasks = w.tasks
      ∨ (w.updateTarget flags).targetWrites = w.targetWrites
        ∧ (∃ t, (w.updateTarget flags).tasks.get? w.tasks.length = some t
            ∧ t.payload = interleaveSpec w.b.staticParts w.b.partValues))
    ∧ (∀ s0 s1 v, w.b.staticParts = [s0, s1] → w.b.partValues = [v] →
        interpResult w.b.staticParts w.b.partValues = s0 ++ jsToString v ++ s1) := by
  have heq := interpResult_eq_interleave w.b.staticParts w.b.partValues hlen
  refine ⟨heq, ?_, ?_⟩
  · unfold InterpWorld.updateTarget
    by_cases hc : (flags &&& LifecycleFlags.fromBind) = 0
        ∧ 0 < (w.b.accessorType &&& AccessorType.Layout)
    · right
      rw [if_pos hc]
      refine ⟨rfl, ?_⟩
      obtain ⟨t, hget, hpay, _, _⟩ := get_after_cancel_append w.tasks w.b.task
        { payload := interpResult w.b.staticParts w.b.partValues,
          reusable := queueTaskOptions.reusable, preempt := queueTaskOptions.preempt,
          canceled := false, ran := false }
      exact ⟨t, hget, by rw [hpay]; exact heq⟩
    · left
      rw [if_neg hc, ← heq]
      exact ⟨rfl, rfl⟩
  · intro s0 s1 v hs hv
    rw [hs, hv]
    simp [interpResult, interleaveSpec, String.append_assoc]

/-- Witness for claim C1 at a concrete two-part interpolation. -/
theorem claim_C1_witness :
    interpResult ["a", " and ", "!"] [JSVal.str "X", JSVal.num 2] = "aX and 2!"
    ∧ interleaveSpec ["a", " and ", "!"] [JSVal.str "X", JSVal.num 2] = "aX and 2!" := by
  have h := claim_C1_interpolation_concat
    { b := { isBound := true, scope := some 1, mode := BindingMode.toView,
             accessorType := 0, staticParts := ["a", " and ", "!"],
             partValues := [JSVal.str "X", JSVal.num 2], task := none },
      tasks := [], targetWrites := [] } 0 (by decide)
  refine ⟨by decide, ?_⟩
  rw [← h.1]
  decide

/-- Claim C3 fails on the code: `State.activated = 0b1110` is not the union
`activating|beforeBindCalled|activateChildrenCalled = 0b0111`, and the state
with exactly those three flags set does not satisfy the `activated` mask
test; symmetrically for `deactivated = 0b1110_0000` versus
`deactivating|beforeDetachCalled|deactivateChildrenCalled = 0b0111_0000`. -/
theorem claim_C3_counterexample :
    stateHas (State.activating ||| State.beforeBindCalled ||| State.activateChildrenCalled)
        State.activated = false
    ∧ State.activated ≠
        State.activating ||| State.beforeBindCalled ||| State.activateChildrenCalled
    ∧ stateHas (State.deactivating ||| State.beforeDetachCalled
          ||| State.deactivateChildrenCalled) State.deactivated = false
    ∧ State.deactivated ≠
        State.deactivating ||| State.beforeDetachCalled ||| State.deactivateChildrenCalled := by
  decide

set_option maxRecDepth 8192 in
/-- Claim C3 amended: `State.activated = 0b1110` is
`beforeBindCalled ||| activateChildrenCalled ||| 0b1000` — an unnamed bit,
not `activating` — so a state satisfies the `activated` test iff it has
those three bits, and the state with exactly `activating`,
`beforeBindCalled`, `activateChildrenCalled` set does not; symmetrically
`deactivated = 0b1110_0000` is
`beforeDetachCalled ||| deactivateChildrenCalled ||| 0b1000_0000`.
`stringifyState` prints accordingly. -/
theorem claim_C3_bitmask (s : Nat) (hs : s < 1024) :
    State.activated = State.beforeBindCalled ||| State.activateChildrenCalled ||| 0b1000
    ∧ (stateHas s State.activated = true ↔
        stateHas s State.beforeBindCalled = true
        ∧ stateHas s State.activateChildrenCalled = true
        ∧ stateHas s 0b1000 = true)
    ∧ stateHas (State.activating ||| State.beforeBindCalled ||| State.activateChildrenCalled)
        State.activated = false
    ∧ stringifyState
        (State.activating ||| State.beforeBindCalled ||| State.activateChildrenCalled)
        = "activating|beforeBindCalled|activateChildrenCalled"
    ∧ stringifyState State.activated = "activated"
    ∧ State.deactivated =
        State.beforeDetachCalled ||| State.deactivateChildrenCalled ||| 0b10000000
    ∧ (stateHas s State.deactivated = true ↔
        stateHas s State.beforeDetachCalled = true
        ∧ stateHas s State.deactivateChildrenCalled = true
        ∧ stateHas s 0b10000000 = true)
    ∧ stateHas (State.deactivating ||| State.beforeDetachCalled
          ||| State.deactivateChildrenCalled) State.deactivated = false := by
  have hball1 : ∀ s2 : Nat, s2 < 1024 → (stateHas s2 State.activated = true ↔
      stateHas s2 State.beforeBindCalled = true
      ∧ stateHas s2 State.activateChildrenCalled = true
      ∧ stateHas s2 0b1000 = true) := by decide
  have hball2 : ∀ s2 : Nat, s2 < 1024 → (stateHas s2 State.deactivated = true ↔
      stateHas s2 State.beforeDetachCalled = true
      ∧ stateHas s2 State.deactivateChildrenCalled = true
      ∧ stateHas s2 0b10000000 = true) := by decide
  exact ⟨by decide, hball1 s hs, by decide, by decide, by decide, by decide,
    hball2 s hs, by decide⟩

/-- Witness for the amended claim C3 at the concrete state `0b1110`. -/
theorem claim_C3_witness :
    (0b1110 : Nat) < 1024
    ∧ (stateHas 0b1110 State.activated = true ↔
        stateHas 0b1110 State.beforeBindCalled = true
        ∧ stateHas 0b1110 State.activateChildrenCalled = true
        ∧ stateHas 0b1110 0b1000 = true) :=
  ⟨by decide, (claim_C3_bitmask 0b1110 (by decide)).2.1⟩

/-- Claim C10: the two-way `BindingTargetSubscriber` forwards a target
change to `updateSource` exactly when the notified value differs by strict
inequality from the source expression's current value; on strict equality
the binding is left untouched. -/
theorem claim_C10_twoway_echo (b : TwoWayBinding) (value : JSVal) :
    ((BindingTargetSubscriber.handleChange b value).2 = true ↔
        jsStrictEq value b.exprValue = false)
    ∧ (jsStrictEq value b.exprValue = true →
        BindingTargetSubscriber.handleChange b value = (b, false))
    ∧ ((BindingTargetSubscriber.handleChange b value).2 = true →
        (BindingTargetSubscriber.handleChange b value).1.source = value) := by
  unfold BindingTargetSubscriber.handleChange
  by_cases hs : jsStrictEq value b.exprValue = true
  · simp [hs]
  · simp only [Bool.not_eq_true] at hs
    simp [hs]

/-- Witness for claim C10: a strictly equal notification leaves the binding
unchanged; a differing one updates the source. -/
theorem claim_C10_witness :
    jsStrictEq (JSVal.num 1) (JSVal.num 1) = true
    ∧ BindingTargetSubscriber.handleChange
        { source := JSVal.num 0, exprValue := JSVal.num 1 } (JSVal.num 1)
        = ({ source := JSVal.num 0, exprValue := JSVal.num 1 }, false) :=
  ⟨by decide,
   (claim_C10_twoway_echo { source := JSVal.num 0, exprValue := JSVal.num 1 }
      (JSVal.num 1)).2.1 (by decide)⟩

/-- Claim C7 fails on the code: `ContentBinding.handleChange` indeed uses
loose inequality (`!=`), but `ContentBinding2.handleChange` compares with
strict equality (`===`), so the coercibly equal pair `1` and `"1"` *is*
treated as a change there: the cached value is updated and a target write
occurs (shown with `fromBind` flags, which make the write synchronous). -/
theorem claim_C7_counterexample :
    jsLooseEq (JSVal.num 1) coerceCB2World.b.value = true
    ∧ (coerceCB2World.handleChange sampleExpr (JSVal.num 1) LifecycleFlags.fromBind).writes
        = ["1"]
    ∧ (coerceCB2World.handleChange sampleExpr (JSVal.num 1) LifecycleFlags.fromBind).b.value
        = JSVal.num 1 := by
  decide

/-- Claim C7 amended: `ContentBinding.handleChange` treats a value as
changed using loose inequality, so loosely (coercibly) equal values never
update the cache and never notify the owner; `ContentBinding2.handleChange`
instead uses strict equality: strictly equal values cause no write, but
coercibly-equal-yet-not-strictly-equal values (such as `1` versus `"1"`)
do update the cache and do write to the target. -/
theorem claim_C7_change_detection (cb : ContentBinding) (expr : SourceExpression)
    (nv : JSVal) (w : CB2World) (expr2 : SourceExpression) (nv2 : JSVal) (flags : Nat)
    (hb : cb.isBound = true) (hb2 : w.b.isBound = true) :
    (jsLooseEq (if canOptimizeFor expr cb.obs then nv else expr.value) cb.value = true →
      (cb.handleChange expr nv).b.value = cb.value
      ∧ (cb.handleChange expr nv).updatedOwner = none)
    ∧ ((if canOptimizeFor expr2 w.b.obs then nv2 else expr2.value) = w.b.value →
      (w.handleChange expr2 nv2 flags).writes = w.writes
      ∧ (w.handleChange expr2 nv2 flags).tasks = w.tasks
      ∧ (w.handleChange expr2 nv2 flags).b.value = w.b.value)
    ∧ (coerceCB2World.handleChange sampleExpr (JSVal.num 1) LifecycleFlags.fromBind).writes
        = ["1"] := by
  refine ⟨?_, ?_, by decide⟩
  · intro hle
    unfold ContentBinding.handleChange
    rw [hb]
    by_cases hco : canOptimizeFor expr cb.obs
    · simp only [hco, if_true] at hle
      simp [hco, hle]
    · simp only [Bool.not_eq_true] at hco
      rw [hco] at hle
      simp only [Bool.false_eq_true, if_false] at hle
      simp [hco, hle]
  · intro heq
    rw [cb2Handle_unchanged w expr2 nv2 flags hb2 heq]
    exact ⟨rfl, rfl, rfl⟩

/-- Witness for the amended claim C7: notifying the bound sample
`ContentBinding` (cached `"a"`) with the loosely equal `"a"` updates nothing
and notifies nobody; notifying the sample `ContentBinding2` with its own
cached value changes nothing either. -/
theorem claim_C7_witness :
    jsLooseEq (if canOptimizeFor sampleExpr sampleContentBinding.obs
        then JSVal.str "a" else sampleExpr.value) sampleContentBinding.value = true
    ∧ (sampleContentBinding.handleChange sampleExpr (JSVal.str "a")).updatedOwner = none
    ∧ (sampleCB2World.handleChange sampleExpr (JSVal.str "a") 0).tasks
        = sampleCB2World.tasks := by
  have h := claim_C7_change_detection sampleContentBinding sampleExpr (JSVal.str "a")
    sampleCB2World sampleExpr (JSVal.str "a") 0 (by decide) (by decide)
  exact ⟨by decide, (h.1 (by decide)).2, (h.2.1 (by decide)).2.1⟩

theorem cbHandle_evaluated (cb : ContentBinding) (expr : SourceExpression) (nv : JSVal)
    (hb : cb.isBound = true) :
    (cb.handleChange expr nv).evaluated = !(canOptimizeFor expr cb.obs) := by
  unfold ContentBinding.handleChange
  rw [hb]
  simp only [Bool.not_true, Bool.false_eq_true, if_false]
  split <;> split <;> simp_all

theorem cbHandle_connected (cb : ContentBinding) (expr : SourceExpression) (nv : JSVal)
    (hb : cb.isBound = true) :
    (cb.handleChange expr nv).connected =
      (!(canOptimizeFor expr cb.obs) && (cb.mode &&& BindingMode.toView != 0)) := by
  unfold ContentBinding.handleChange
  rw [hb]
  simp only [Bool.not_true, Bool.false_eq_true, if_false]
  split <;> split <;> simp_all

theorem cbHandle_obs (cb : ContentBinding) (expr : SourceExpression) (nv : JSVal)
    (hb : cb.isBound = true) :
    (cb.handleChange expr nv).b.obs =
      (if canOptimizeFor expr cb.obs then cb.obs
       else retrackObs cb.obs cb.mode expr.reads) := by
  unfold ContentBinding.handleChange
  rw [hb]
  simp only [Bool.not_true, Bool.false_eq_true, if_false]
  split <;> split <;> simp_all

theorem cbHandle_owner (cb : ContentBinding) (expr : SourceExpression) (nv : JSVal)
    (hb : cb.isBound = true) :
    (cb.handleChange expr nv).updatedOwner =
      (if jsLooseEq (if canOptimizeFor expr cb.obs then nv else expr.value) cb.value
       then none
       else some (if canOptimizeFor expr cb.obs then nv else expr.value)) := by
  unfold ContentBinding.handleChange
  rw [hb]
  simp only [Bool.not_true, Bool.false_eq_true, if_false]
  split <;> split <;> simp_all

theorem cb2Handle_imm_red (w : CB2World) (expr : SourceExpression) (nv0 : JSVal)
    (flags : Nat) (hb : w.b.isBound = true)
    (hne : ¬((if canOptimizeFor expr w.b.obs then nv0 else expr.value) = w.b.value))
    (hflags : ¬((flags &&& LifecycleFlags.fromBind) = 0)) :
    w.handleChange expr nv0 flags =
      CB2World.updateTarget
        { w with tasks := cancelOpt w.tasks w.b.task,
                 b := { w.b with obs :=
                    (if canOptimizeFor expr w.b.obs then w.b.obs
                     else retrackObs w.b.obs w.b.mode expr.reads) } }
        (if canOptimizeFor expr w.b.obs then nv0 else expr.value) := by
  unfold CB2World.handleChange
  rw [hb]
  by_cases hco : canOptimizeFor expr w.b.obs
  · simp only [hco, if_true] at hne ⊢
    simp [hne, hflags]
  · simp only [Bool.not_eq_true] at hco
    rw [hco] at hne
    simp only [Bool.false_eq_true, if_false] at hne
    simp [hco, hne, hflags]

theorem cb2Handle_obs (w : CB2World) (expr : SourceExpression) (nv : JSVal)
    (flags : Nat) (hb : w.b.isBound = true) :
    (w.handleChange expr nv flags).b.obs =
      (if canOptimizeFor expr w.b.obs then w.b.obs
       else retrackObs w.b.obs w.b.mode expr.reads) := by
  by_cases hne : (if canOptimizeFor expr w.b.obs then nv else expr.value) = w.b.value
  · rw [cb2Handle_unchanged w expr nv flags hb hne]
  · by_cases hfl : (flags &&& LifecycleFlags.fromBind) = 0
    · rw [cb2Handle_red w expr nv flags hb hne hfl]
    · rw [cb2Handle_imm_red w expr nv flags hb hne hfl]
      exact (cb2Update_facts _ _).2.2.2.2.1

/-- Claim C6: in both content bindings' `handleChange`, the notified value
is used directly — no `evaluate` call, no version bump, record untouched —
exactly when the expression is a bare `AccessScope` and the record holds
exactly one subscription; otherwise the expression is re-evaluated with the
version bumped and only current-version entries surviving the diff (the
bindings' mode being `toView`, as their readonly initializer sets). -/
theorem claim_C6_tracking_optimization (cb : ContentBinding) (expr : SourceExpression)
    (nv : JSVal) (w : CB2World) (expr2 : SourceExpression) (nv2 : JSVal) (flags : Nat)
    (hb : cb.isBound = true) (hm : cb.mode = BindingMode.toView)
    (hb2 : w.b.isBound = true) (hm2 : w.b.mode = BindingMode.toView) :
    (∀ (e : SourceExpression) (r : ObserverRecord),
        canOptimizeFor e r = true ↔ (e.kind = ExpressionKind.accessScope ∧ r.count = 1))
    ∧ ((cb.handleChange expr nv).evaluated = false ↔ canOptimizeFor expr cb.obs = true)
    ∧ (canOptimizeFor expr cb.obs = true →
        (cb.handleChange expr nv).b.obs = cb.obs
        ∧ (jsLooseEq nv cb.value = false →
            (cb.handleChange expr nv).updatedOwner = some nv))
    ∧ (canOptimizeFor expr cb.obs = false →
        (cb.handleChange expr nv).evaluated = true
        ∧ (cb.handleChange expr nv).connected = true
        ∧ (cb.handleChange expr nv).b.obs.version = cb.obs.version + 1
        ∧ (∀ e ∈ (cb.handleChange expr nv).b.obs.entries, e.2 = cb.obs.version + 1)
        ∧ (jsLooseEq expr.value cb.value = false →
            (cb.handleChange expr nv).updatedOwner = some expr.value))
    ∧ (canOptimizeFor expr2 w.b.obs = true →
        (w.handleChange expr2 nv2 flags).b.obs = w.b.obs
        ∧ (¬(nv2 = w.b.value) → (flags &&& LifecycleFlags.fromBind) = 0 →
            ((w.handleChange expr2 nv2 flags).tasks.get? w.tasks.length).map
                (fun t => t.payload) = some (nv2, flags)))
    ∧ (canOptimizeFor expr2 w.b.obs = false →
        (w.handleChange expr2 nv2 flags).b.obs
          = retrackObs w.b.obs w.b.mode expr2.reads
        ∧ (retrackObs w.b.obs w.b.mode expr2.reads).version = w.b.obs.version + 1
        ∧ (∀ e ∈ (retrackObs w.b.obs w.b.mode expr2.reads).entries,
            e.2 = w.b.obs.version + 1)) := by
  refine ⟨?_, ?_, ?_, ?_, ?_, ?_⟩
  · intro e r
    unfold canOptimizeFor
    rw [Bool.and_eq_true, beq_iff_eq, beq_iff_eq]
  · rw [cbHandle_evaluated cb expr nv hb]
    cases hco : canOptimizeFor expr cb.obs <;> simp
  · intro hco
    refine ⟨by rw [cbHandle_obs cb expr nv hb, hco]; simp, ?_⟩
    intro hlc
    rw [cbHandle_owner cb expr nv hb, hco]
    simp [hlc]
  · intro hco
    have hver := retrackObs_toView_version cb.obs expr.reads
    have hent := retrackObs_toView_entries cb.obs expr.reads
    rw [← hm] at hver hent
    refine ⟨?_, ?_, ?_, ?_, ?_⟩
    · rw [cbHandle_evaluated cb expr nv hb, hco]
      rfl
    · rw [cbHandle_connected cb expr nv hb, hco, hm]
      decide
    · rw [cbHandle_obs cb expr nv hb, hco]
      simp only [Bool.false_eq_true, if_false]
      exact hver
    · rw [cbHandle_obs cb expr nv hb, hco]
      simp only [Bool.false_eq_true, if_false]
      exact hent
    · intro hlc
      rw [cbHandle_owner cb expr nv hb, hco]
      simp [hlc]
  · intro hco
    refine ⟨by rw [cb2Handle_obs w expr2 nv2 flags hb2, hco]; rfl, ?_⟩
    intro hne hfl
    rw [cb2Handle_red w expr2 nv2 flags hb2 (by rw [hco]; simpa using hne) hfl]
    have hclen : (cancelOpt w.tasks w.b.task).length = w.tasks.length :=
      length_cancelOpt w.tasks w.b.task
    have hget : (cancelOpt w.tasks w.b.task ++
        [{ payload := ((if canOptimizeFor expr2 w.b.obs then nv2 else expr2.value), flags),
           reusable := false, preempt := true, canceled := false,
           ran := false : TaskRec (JSVal × Nat) }]).get? w.tasks.length =
        some { payload := ((if canOptimizeFor expr2 w.b.obs then nv2 else expr2.value), flags),
               reusable := false, preempt := true, canceled := false, ran := false } := by
      rw [← hclen]
      simp [List.get?_eq_getElem?]
    show ((cancelOpt w.tasks w.b.task ++ _).get? w.tasks.length).map _ = _
    rw [hget]
    simp [hco]
  · intro hco
    have hver := retrackObs_toView_version w.b.obs expr2.reads
    have hent := retrackObs_toView_entries w.b.obs expr2.reads
    rw [← hm2] at hver hent
    exact ⟨by rw [cb2Handle_obs w expr2 nv2 flags hb2, hco]; rfl, hver, hent⟩

/-- Witness for claim C6: on the bound sample `ContentBinding` (bare
`AccessScope`, one subscription) a change notification skips evaluation and
leaves the record untouched. -/
theorem claim_C6_witness :
    (sampleContentBinding.handleChange sampleExpr (JSVal.str "b")).evaluated = false
    ∧ (sampleContentBinding.handleChange sampleExpr (JSVal.str "b")).b.obs
        = sampleContentBinding.obs
    ∧ (sampleContentBinding.handleChange sampleExpr (JSVal.str "b")).updatedOwner
        = some (JSVal.str "b") := by
  have h := claim_C6_tracking_optimization sampleContentBinding sampleExpr
    (JSVal.str "b") sampleCB2World sampleExpr (JSVal.str "b") 0
    (by decide) (by decide) (by decide) (by decide)
  refine ⟨h.2.1.mpr (by decide), (h.2.2.1 (by decide)).1, (h.2.2.1 (by decide)).2 (by decide)⟩

/-- Claim C8: for all three binding types, `$bind` with the identical scope
while bound returns immediately — the state (subscriptions, cached values,
tasks, writes) is untouched — and `$bind` with a different scope while
bound equals an explicit `$unbind` followed by the same `$bind`. -/
theorem claim_C8_rebind (w : InterpWorld) (flags scope : Nat) (pv : List JSVal)
    (cb : ContentBinding) (expr : SourceExpression) (scopeC : Nat) (hostC : Option Nat)
    (w2 : CB2World) (expr2 : SourceExpression) (scope2 : Nat) (host2 : Option Nat) :
    (w.b.isBound = true → w.b.scope = some scope → w.bindOp flags scope pv = w)
    ∧ (w.b.isBound = true → ¬(w.b.scope = some scope) →
        w.bindOp flags scope pv = (w.unbindOp).bindOp flags scope pv)
    ∧ (cb.isBound = true → cb.scope = some scopeC →
        cb.bindOp expr scopeC hostC = cb)
    ∧ (cb.isBound = true → ¬(cb.scope = some scopeC) →
        cb.bindOp expr scopeC hostC = (cb.unbindOp).bindOp expr scopeC hostC)
    ∧ (w2.b.isBound = true → w2.b.scope = some scope2 →
        w2.bindOp expr2 scope2 host2 = w2)
    ∧ (w2.b.isBound = true → ¬(w2.b.scope = some scope2) →
        w2.bindOp expr2 scope2 host2 = (w2.unbindOp).bindOp expr2 scope2 host2) := by
  refine ⟨?_, ?_, ?_, ?_, ?_, ?_⟩
  · intro hb hs
    unfold InterpWorld.bindOp
    rw [hb, hs]
    simp
  · intro hb hs
    have hub : (w.unbindOp).b.isBound = false := by
      unfold InterpWorld.unbindOp
      rw [hb]
      rfl
    unfold InterpWorld.bindOp
    rw [hb, hub]
    simp [hs]
  · intro hb hs
    unfold ContentBinding.bindOp
    rw [hb, hs]
    simp
  · intro hb hs
    have hub : (cb.unbindOp).isBound = false := by
      unfold ContentBinding.unbindOp
      rw [hb]
      rfl
    unfold ContentBinding.bindOp
    rw [hb, hub]
    simp [hs]
  · intro hb hs
    unfold CB2World.bindOp
    rw [hb, hs]
    simp
  · intro hb hs
    have hub : (w2.unbindOp).b.isBound = false := by
      unfold CB2World.unbindOp
      rw [hb]
      rfl
    unfold CB2World.bindOp
    rw [hb, hub]
    simp [hs]

/-- Witness for claim C8: rebinding the sample worlds to their own scope
(scope id 1) is the identity. -/
theorem claim_C8_witness :
    sampleInterpWorld.bindOp 0 1 [JSVal.str "X"] = sampleInterpWorld
    ∧ sampleContentBinding.bindOp sampleExpr 1 none = sampleContentBinding
    ∧ sampleCB2World.bindOp sampleExpr 1 none = sampleCB2World := by
  have h := claim_C8_rebind sampleInterpWorld 0 1 [JSVal.str "X"]
    sampleContentBinding sampleExpr 1 none sampleCB2World sampleExpr 1 none
  exact ⟨h.1 (by decide) (by decide), h.2.2.1 (by decide) (by decide),
    h.2.2.2.2.1 (by decide) (by decide)⟩

theorem interpUpdate_inv (w : InterpWorld) (flags : Nat) (h : InterpInv w) :
    InterpInv (w.updateTarget flags) := by
  by_cases hc : (flags &&& LifecycleFlags.fromBind) = 0
      ∧ 0 < (w.b.accessorType &&& AccessorType.Layout)
  · exact (interpUpdate_queue w flags h hc).2.2.1
  · rw [interpUpdate_imm w flags hc]
    exact h

theorem cb2Handle_inv (w : CB2World) (expr : SourceExpression) (nv : JSVal)
    (flags : Nat) (h : CB2Inv w) : CB2Inv (w.handleChange expr nv flags) := by
  by_cases hb : w.b.isBound = true
  · by_cases hne : (if canOptimizeFor expr w.b.obs then nv else expr.value) = w.b.value
    · rw [cb2Handle_unchanged w expr nv flags hb hne]
      exact h
    · by_cases hfl : (flags &&& LifecycleFlags.fromBind) = 0
      · exact (cb2Handle_queue w expr nv flags h hb hfl hne).2.2.1
      · rw [cb2Handle_imm_red w expr nv flags hb hne hfl]
        have hfacts := cb2Update_facts
          { w with tasks := cancelOpt w.tasks w.b.task,
                   b := { w.b with obs :=
                      (if canOptimizeFor expr w.b.obs then w.b.obs
                       else retrackObs w.b.obs w.b.mode expr.reads) } }
          (if canOptimizeFor expr w.b.obs then nv else expr.value)
        show pendingIdxs _ = _
        rw [hfacts.1, hfacts.2.1]
        simp only [Option.elim]
        exact pendingIdxs_eq_nil _ (cancelOpt_pending_none w.tasks w.b.task h)
  · have hb2 : w.b.isBound = false := by simpa using hb
    rw [cb2Handle_unbound w expr nv flags hb2]
    exact h

/-- Claim C2: both deferred-write paths keep at most one pending task per
binding: a newly scheduled write cancels the previously outstanding task
(so it can never run), the single-pending invariant is preserved by
scheduling and by queue flushes, a flush writes only the payload of the one
referenced pending task — canceled tasks never mutate the target — and of
two writes scheduled in the same turn only the most recent value reaches
the target. -/
theorem claim_C2_write_coalescing (w : InterpWorld) (flags flags2 : Nat)
    (pv1 pv2 : List JSVal) (cw : CB2World) (expr expr2 : SourceExpression)
    (nv nv2 : JSVal) (cflags cflags2 : Nat)
    (h : InterpInv w) (hc : CB2Inv cw) :
    (pendingIdxs w.tasks).length ≤ 1
    ∧ (pendingIdxs cw.tasks).length ≤ 1
    ∧ InterpInv (w.updateTarget flags)
    ∧ InterpInv w.flush
    ∧ CB2Inv (cw.handleChange expr nv cflags)
    ∧ CB2Inv cw.flush
    ∧ (∀ k, w.b.task = some k →
        ((flags &&& LifecycleFlags.fromBind) = 0
          ∧ 0 < (w.b.accessorType &&& AccessorType.Layout)) →
        taskPendingAt (w.updateTarget flags).tasks k = false)
    ∧ (∀ k, cw.b.task = some k → cw.b.isBound = true →
        (cflags &&& LifecycleFlags.fromBind) = 0 →
        ¬((if canOptimizeFor expr cw.b.obs then nv else expr.value) = cw.b.value) →
        taskPendingAt (cw.handleChange expr nv cflags).tasks k = false)
    ∧ (w.flush).targetWrites = w.targetWrites ++ w.activePayload
    ∧ (cw.flush).writes = cw.writes ++
        (cw.activePayload.map (fun p => if p.1.isNode then "" else jsToString p.1))
    ∧ ((flags &&& LifecycleFlags.fromBind) = 0 →
        (flags2 &&& LifecycleFlags.fromBind) = 0 →
        0 < (w.b.accessorType &&& AccessorType.Layout) →
        (((((w.setParts pv1).updateTarget flags).setParts pv2).updateTarget
            flags2).flush).targetWrites
          = w.targetWrites ++ [interpResult w.b.staticParts pv2])
    ∧ (canOptimizeFor expr cw.b.obs = true → canOptimizeFor expr2 cw.b.obs = true →
        cw.b.isBound = true →
        ¬(nv = cw.b.value) → ¬(nv2 = cw.b.value) →
        (cflags &&& LifecycleFlags.fromBind) = 0 →
        (cflags2 &&& LifecycleFlags.fromBind) = 0 →
        (((cw.handleChange expr nv cflags).handleChange expr2 nv2 cflags2).flush).writes
          = cw.writes ++ [if nv2.isNode then "" else jsToString nv2]) := by
  refine ⟨?_, ?_, interpUpdate_inv w flags h, (interpFlush_spec w h).2.1,
    cb2Handle_inv cw expr nv cflags hc, (cb2Flush_spec cw hc).2.1, ?_, ?_,
    (interpFlush_spec w h).1, (cb2Flush_spec cw hc).1, ?_, ?_⟩
  · unfold InterpInv at h
    rw [h]
    cases w.b.task <;> simp
  · unfold CB2Inv at hc
    rw [hc]
    cases cw.b.task <;> simp
  · intro k hk hcond
    exact (interpUpdate_queue w flags h hcond).2.2.2.2.1 k hk
  · intro k hk hb hfl hne
    exact (cb2Handle_queue cw expr nv cflags hc hb hfl hne).2.2.2.2.2.1 k hk
  · intro hf1 hf2 hacc
    have h0 : InterpInv (w.setParts pv1) := h
    have hq1 := interpUpdate_queue (w.setParts pv1) flags h0 ⟨hf1, hacc⟩
    set u1 := (w.setParts pv1).updateTarget flags with hu1
    have h1 : InterpInv u1 := hq1.2.2.1
    have h1' : InterpInv (u1.setParts pv2) := h1
    have hacc1 : 0 < ((u1.setParts pv2).b.accessorType &&& AccessorType.Layout) := by
      show 0 < (u1.b.accessorType &&& AccessorType.Layout)
      rw [hq1.2.2.2.2.2.2.2.2.2]
      exact hacc
    have hq2 := interpUpdate_queue (u1.setParts pv2) flags2 h1' ⟨hf2, hacc1⟩
    set u2 := (u1.setParts pv2).updateTarget flags2 with hu2
    have h2 : InterpInv u2 := hq2.2.2.1
    have hwr := (interpFlush_spec u2 h2).1
    rw [hwr]
    have hstat : (u1.setParts pv2).b.staticParts = w.b.staticParts := by
      show u1.b.staticParts = w.b.staticParts
      rw [hq1.2.2.2.2.2.1]
      rfl
    have hap : u2.activePayload = [interpResult w.b.staticParts pv2] := by
      simp only [InterpWorld.activePayload, hq2.1, hq2.2.1]
      rw [hstat]
      rfl
    rw [hap]
    have hw2 : u2.targetWrites = w.targetWrites := by
      rw [hq2.2.2.2.1]
      show u1.targetWrites = w.targetWrites
      rw [hq1.2.2.2.1]
      rfl
    rw [hw2]
  · intro hco1 hco2 hb hne1 hne2 hf1 hf2
    have hq1 := cb2Handle_queue cw expr nv cflags hc hb hf1
      (by rw [hco1]; simpa using hne1)
    set c1 := cw.handleChange expr nv cflags with hc1
    have hobs1 : c1.b.obs = cw.b.obs := by
      rw [hc1, cb2Handle_obs cw expr nv cflags hb, hco1]
      simp
    have hval1 : c1.b.value = cw.b.value := hq1.2.2.2.2.2.2.1
    have hq2 := cb2Handle_queue c1 expr2 nv2 cflags2 hq1.2.2.1 hq1.2.2.2.2.2.2.2.1 hf2
      (by rw [hobs1, hco2, hval1]; simpa using hne2)
    set c2 := c1.handleChange expr2 nv2 cflags2 with hc2
    have hwr := (cb2Flush_spec c2 hq2.2.2.1).1
    rw [hwr]
    have hap : c2.activePayload = [(nv2, cflags2)] := by
      simp only [CB2World.activePayload, hq2.1, hq2.2.1]
      simp only [hobs1, hco2, if_true]
    rw [hap]
    have hw2 : c2.writes = cw.writes := by
      rw [hq2.2.2.2.1, hq1.2.2.2.1]
    rw [hw2]
    simp

/-- Witness for claim C2: the spec's own scenario — two same-turn updates
of `"a${x}b"` (to `"Z"`, then `"W"`) followed by a flush write only the
final concatenation `"aWb"`. -/
theorem claim_C2_witness :
    InterpInv sampleInterpWorld ∧ CB2Inv sampleCB2World
    ∧ (((((sampleInterpWorld.setParts [JSVal.str "Z"]).updateTarget 0).setParts
          [JSVal.str "W"]).updateTarget 0).flush).targetWrites = ["aWb"] := by
  have h := claim_C2_write_coalescing sampleInterpWorld 0 0 [JSVal.str "Z"]
    [JSVal.str "W"] sampleCB2World sampleExpr sampleExpr (JSVal.str "x")
    (JSVal.str "y") 0 0 (by rfl) (by rfl)
  refine ⟨by rfl, by rfl, ?_⟩
  have hl := h.2.2.2.2.2.2.2.2.2.2.1 (by decide) (by decide) (by decide)
  rw [hl]
  decide

/-- Claim C4 fails on the code: `ContentBinding2.$unbind` does not cancel
the outstanding `domWriteQueue` task.  After a bound sample binding queues a
write of `"b"` and is then unbound, its task reference is still set, the
task is still pending, and the flush still mutates the text target to
`"b"`. -/
theorem claim_C4_counterexample :
    (((sampleCB2World.handleChange sampleExpr (JSVal.str "b") 0).unbindOp).b.task
        = some 0)
    ∧ pendingIdxs (((sampleCB2World.handleChange sampleExpr (JSVal.str "b") 0).unbindOp).tasks)
        = [0]
    ∧ ((((sampleCB2World.handleChange sampleExpr (JSVal.str "b") 0).unbindOp).flush).textContent)
        = "b"
    ∧ ((((sampleCB2World.handleChange sampleExpr (JSVal.str "b") 0).unbindOp).flush).writes)
        = ["b"] := by
  decide

/-- Claim C4 amended: `InterpolationBinding.$unbind` cancels the outstanding
task, so a post-unbind flush never writes; `ContentBinding` never schedules
tasks and its post-unbind `handleChange` is a no-op; but
`ContentBinding2.$unbind` leaves its queued task untouched, so a write
scheduled before the unbind still mutates the target at the next flush —
only direct post-unbind `handleChange` notifications are no-ops for it. -/
theorem claim_C4_unbind_cancellation (w : InterpWorld) (cb : ContentBinding)
    (expr : SourceExpression) (nv : JSVal) (cw : CB2World)
    (expr2 : SourceExpression) (nv2 : JSVal) (cflags : Nat)
    (h : InterpInv w) (hb : w.b.isBound = true) (hcw : CB2Inv cw) :
    ((w.unbindOp).b.task = none
      ∧ (∀ j, taskPendingAt (w.unbindOp).tasks j = false)
      ∧ ((w.unbindOp).flush).targetWrites = w.targetWrites)
    ∧ (cb.isBound = false →
        cb.handleChange expr nv =
          { b := cb, evaluated := false, connected := false,
            observedCollection := false, updatedOwner := none })
    ∧ (cb.isBound = true →
        (cb.unbindOp).handleChange expr nv =
          { b := cb.unbindOp, evaluated := false, connected := false,
            observedCollection := false, updatedOwner := none })
    ∧ (cw.b.isBound = true →
        (cw.unbindOp).tasks = cw.tasks ∧ (cw.unbindOp).b.task = cw.b.task)
    ∧ (cw.b.isBound = true →
        ((cw.unbindOp).flush).writes = cw.writes ++
          (cw.activePayload.map (fun p => if p.1.isNode then "" else jsToString p.1)))
    ∧ (cw.b.isBound = false → cw.handleChange expr2 nv2 cflags = cw) := by
  obtain ⟨hu1, hu2, hu3, hu4, hu5⟩ := interpUnbind_spec w h hb
  refine ⟨⟨hu1, hu3, hu5⟩, ?_, ?_, ?_, ?_, ?_⟩
  · intro hcb
    unfold ContentBinding.handleChange
    rw [hcb]
    rfl
  · intro hcb
    have hub : (cb.unbindOp).isBound = false := by
      unfold ContentBinding.unbindOp
      rw [hcb]
      rfl
    unfold ContentBinding.handleChange
    rw [hub]
    rfl
  · intro hcb
    have hf := cb2Unbind_facts cw hcb
    exact ⟨hf.1, hf.2.1⟩
  · intro hcb
    have hf := cb2Unbind_facts cw hcb
    have hinv : CB2Inv (cw.unbindOp) := by
      show pendingIdxs (cw.unbindOp).tasks = (cw.unbindOp).b.task.elim [] (fun i => [i])
      rw [hf.1, hf.2.1]
      exact hcw
    have hap : (cw.unbindOp).activePayload = cw.activePayload := by
      unfold CB2World.activePayload
      rw [hf.1, hf.2.1]
    have := (cb2Flush_spec (cw.unbindOp) hinv).1
    rw [this, hap, hf.2.2.2.1]
  · intro hcb
    exact cb2Handle_unbound cw expr2 nv2 cflags hcb

/-- Witness for the amended claim C4: unbinding the sample interpolation
world after it queued a write leaves no pending task and the flush writes
nothing; unbinding the sample `ContentBinding2` after it queued a write
leaves its task in place. -/
theorem claim_C4_witness :
    InterpInv (sampleInterpWorld.updateTarget 0)
    ∧ (sampleInterpWorld.updateTarget 0).b.isBound = true
    ∧ CB2Inv (sampleCB2World.handleChange sampleExpr (JSVal.str "b") 0)
    ∧ ((((sampleInterpWorld.updateTarget 0).unbindOp).flush).targetWrites
        = (sampleInterpWorld.updateTarget 0).targetWrites)
    ∧ (((sampleCB2World.handleChange sampleExpr (JSVal.str "b") 0).unbindOp).tasks
        = (sampleCB2World.handleChange sampleExpr (JSVal.str "b") 0).tasks) := by
  have h := claim_C4_unbind_cancellation (sampleInterpWorld.updateTarget 0)
    sampleContentBinding sampleExpr (JSVal.str "x")
    (sampleCB2World.handleChange sampleExpr (JSVal.str "b") 0)
    sampleExpr (JSVal.str "y") 0
    (by rfl) (by decide) (by rfl)
  exact ⟨by rfl, by decide, by rfl, h.1.2.2, (h.2.2.2.1 (by decide)).1⟩

/-- Claim C5 fails on the code: `updateTarget` never consults the binding
mode.  In one-time mode, with a layout-affecting accessor and flags lacking
`fromBind`, the claim's condition is false yet the code still defers the
write through the queue. -/
theorem claim_C5_counterexample :
    ((oneTimeInterpWorld.updateTarget LifecycleFlags.none).tasks.length
        = oneTimeInterpWorld.tasks.length + 1)
    ∧ ((oneTimeInterpWorld.updateTarget LifecycleFlags.none).targetWrites
        = oneTimeInterpWorld.targetWrites)
    ∧ ¬ claimC5Defer LifecycleFlags.none oneTimeInterpWorld.b.mode
        oneTimeInterpWorld.b.accessorType :=
  ⟨by decide, by decide, fun hcl => hcl.2.1 rfl⟩

/-- Claim C5 amended: an `InterpolationBinding` write is deferred through
the task queue (with `reusable = false`, `preempt = true`) if and only if
the flags lack `fromBind` and the target accessor is layout-affecting — the
binding mode plays no part; otherwise, and in particular for every write
carrying the `fromBind` flag (the initial write of `$bind`), the write is
applied immediately and synchronously. -/
theorem claim_C5_defer_policy (w : InterpWorld) (flags scope : Nat)
    (pv : List JSVal) (h : InterpInv w) :
    (((w.updateTarget flags).tasks.length = w.tasks.length + 1
        ∧ (w.updateTarget flags).targetWrites = w.targetWrites) ↔
      ((flags &&& LifecycleFlags.fromBind) = 0
        ∧ 0 < (w.b.accessorType &&& AccessorType.Layout)))
    ∧ (((flags &&& LifecycleFlags.fromBind) = 0
        ∧ 0 < (w.b.accessorType &&& AccessorType.Layout)) →
        (w.updateTarget flags).tasks.get? w.tasks.length =
          some { payload := interpResult w.b.staticParts w.b.partValues,
                 reusable := queueTaskOptions.reusable,
                 preempt := queueTaskOptions.preempt, canceled := false, ran := false })
    ∧ (¬((flags &&& LifecycleFlags.fromBind) = 0
        ∧ 0 < (w.b.accessorType &&& AccessorType.Layout)) →
        w.updateTarget flags =
          { w with targetWrites :=
              w.targetWrites ++ [interpResult w.b.staticParts w.b.partValues] })
    ∧ (¬((flags &&& LifecycleFlags.fromBind) = 0) → w.b.isBound = false →
        (w.bindOp flags scope pv).tasks = w.tasks
        ∧ (w.bindOp flags scope pv).targetWrites =
            w.targetWrites ++ [interpResult w.b.staticParts pv]) := by
  refine ⟨?_, ?_, interpUpdate_imm w flags, ?_⟩
  · constructor
    · intro ⟨hlen, hwr⟩
      by_contra hcond
      rw [interpUpdate_imm w flags hcond] at hlen
      simp at hlen
    · intro hcond
      have hq := interpUpdate_queue w flags h hcond
      refine ⟨?_, hq.2.2.2.1⟩
      show (InterpWorld.updateTarget w flags).tasks.length = w.tasks.length + 1
      unfold InterpWorld.updateTarget
      rw [if_pos hcond]
      show (cancelOpt (w.tasks ++ [_]) w.b.task).length = w.tasks.length + 1
      rw [length_cancelOpt]
      simp
  · intro hcond
    have hq := interpUpdate_queue w flags h hcond
    rw [hq.2.1]
    simp [queueTaskOptions]
  · intro hflags hb
    unfold InterpWorld.bindOp
    rw [hb]
    simp only [Bool.false_eq_true, if_false]
    unfold InterpWorld.bindBody
    rw [interpUpdate_imm _ flags (by
      intro hcon
      exact hflags hcon.1)]
    exact ⟨rfl, rfl⟩

/-- Witness for the amended claim C5: on the sample world (layout accessor),
an update without `fromBind` queues (and writes nothing synchronously), and
one with `fromBind` writes synchronously. -/
theorem claim_C5_witness :
    InterpInv sampleInterpWorld
    ∧ ((sampleInterpWorld.updateTarget 0).tasks.length
          = sampleInterpWorld.tasks.length + 1
        ∧ (sampleInterpWorld.updateTarget 0).targetWrites
          = sampleInterpWorld.targetWrites)
    ∧ sampleInterpWorld.updateTarget LifecycleFlags.fromBind =
        { sampleInterpWorld with targetWrites := ["aXb"] } := by
  have h0 := claim_C5_defer_policy sampleInterpWorld 0 1 [] (by rfl)
  have h1 := claim_C5_defer_policy sampleInterpWorld LifecycleFlags.fromBind 1 [] (by rfl)
  refine ⟨by rfl, h0.1.mpr (by decide), ?_⟩
  have := h1.2.2.1 (by decide)
  rw [this]
  decide

theorem flushBatchRun_spec (flushAdds : Nat → List Nat) (batch : List Nat) :
    ∀ (queue trace : List Nat),
      flushBatchRun flushAdds batch queue trace =
        (queue ++ (batch.map flushAdds).flatten, trace ++ batch) := by
  induction batch with
  | nil => intro queue trace; simp [flushBatchRun]
  | cons e rest ih =>
      intro queue trace
      rw [flushBatchRun, ih]
      simp

theorem passSeq_shift (flushAdds : Nat → List Nat) (q : List Nat) :
    ∀ n, passSeq flushAdds ((q.map flushAdds).flatten) n = passSeq flushAdds q (n + 1) := by
  intro n
  induction n with
  | zero => rfl
  | succ n ih =>
      show ((passSeq flushAdds ((q.map flushAdds).flatten) n).map flushAdds).flatten
        = passSeq flushAdds q (n + 2)
      rw [ih]
      rfl

theorem batchProcess_spec (flushAdds : Nat → List Nat) :
    ∀ (fuel : Nat) (q : List Nat) (ps : List (List Nat)),
      batchProcess flushAdds fuel q = some ps →
      (∀ i, i < ps.length → ps.getD i [] = passSeq flushAdds q i)
      ∧ passSeq flushAdds q ps.length = []
      ∧ (∀ p ∈ ps, p ≠ []) := by
  intro fuel
  induction fuel with
  | zero =>
      intro q ps hps
      cases q with
      | nil =>
          simp only [batchProcess] at hps
          injection hps with hps
          subst hps
          exact ⟨by intro i hi; simp at hi, rfl, by intro p hp; simp at hp⟩
      | cons e rest => simp [batchProcess] at hps
  | succ fuel ih =>
      intro q ps hps
      cases q with
      | nil =>
          simp only [batchProcess] at hps
          injection hps with hps
          subst hps
          exact ⟨by intro i hi; simp at hi, rfl, by intro p hp; simp at hp⟩
      | cons e rest =>
          simp only [batchProcess] at hps
          rw [Option.map_eq_some'] at hps
          obtain ⟨ps', hps', hpseq⟩ := hps
          subst hpseq
          rw [flushBatchRun_spec] at hps'
          simp only [List.nil_append] at hps'
          obtain ⟨ih1, ih2, ih3⟩ := ih _ _ hps'
          refine ⟨?_, ?_, ?_⟩
          · intro i hi
            cases i with
            | zero => rfl
            | succ i =>
                simp only [List.length_cons] at hi
                have := ih1 i (by omega)
                show ps'.getD i [] = passSeq flushAdds (e :: rest) (i + 1)
                rw [this, ← passSeq_shift]
          · show passSeq flushAdds (e :: rest) (ps'.length + 1) = []
            rw [← passSeq_shift]
            exact ih2
          · intro p hp
            rcases List.mem_cons.mp hp with hpe | hpmem
            · subst hpe; simp
            · exact ih3 p hpmem

theorem batchProcess_total (flushAdds : Nat → List Nat) :
    ∀ (fuel : Nat) (q : List Nat) (n : Nat),
      passSeq flushAdds q n = [] → n ≤ fuel →
      (batchProcess flushAdds fuel q).isSome = true := by
  intro fuel
  induction fuel with
  | zero =>
      intro q n hpass hle
      have hn : n = 0 := by omega
      subst hn
      have : q = [] := hpass
      subst this
      simp [batchProcess]
  | succ fuel ih =>
      intro q n hpass hle
      cases q with
      | nil => simp [batchProcess]
      | cons e rest =>
          cases n with
          | zero => exact absurd hpass (by simp [passSeq])
          | succ m =>
              simp only [batchProcess]
              rw [flushBatchRun_spec]
              simp only [List.nil_append]
              have hs := ih _ m (by rw [passSeq_shift]; exact hpass) (by omega)
              cases hbp : batchProcess flushAdds fuel
                  ((List.map flushAdds (e :: rest)).flatten) with
              | none => rw [hbp] at hs; simp at hs
              | some ps2 => rfl

/-- Claim C9: `BatchQueue.begin` increments the depth; `end` decrements it
and runs `process` exactly when the depth returns to zero; `inline(fn)` is
`begin(); fn(); end()`; `process` drains in passes that snapshot and clear
the queue before invoking the snapshot's flush callbacks, so entries added
during a pass are invoked in the following pass, and the drain loop
terminates exactly when a pass adds nothing new. -/
theorem claim_C9_batch_queue (s : BatchQueueState) (f : Nat → List Nat)
    (fuel : Nat) (fn : BatchQueueState → BatchQueueState) (q : List Nat)
    (ps : List (List Nat)) :
    ((s.beginOp).depth = s.depth + 1 ∧ (s.beginOp).queue = s.queue)
    ∧ (s.depth ≠ 1 → s.endOp f fuel = some ({ s with depth := s.depth - 1 }, []))
    ∧ (s.depth = 1 → s.endOp f fuel =
        (batchProcess f fuel s.queue).map
          (fun ps2 => ({ queue := [], depth := 0 }, ps2.flatten)))
    ∧ (BatchQueueState.inline f fuel fn s = BatchQueueState.endOp f fuel (fn (s.beginOp)))
    ∧ (∀ batch, flushBatchRun f batch [] [] = ((batch.map f).flatten, batch))
    ∧ (batchProcess f fuel q = some ps →
        (∀ i, i < ps.length → ps.getD i [] = passSeq f q i)
        ∧ passSeq f q ps.length = []
        ∧ (∀ p ∈ ps, p ≠ []))
    ∧ (∀ n, passSeq f q n = [] → n ≤ fuel → (batchProcess f fuel q).isSome = true) := by
  refine ⟨⟨rfl, rfl⟩, ?_, ?_, rfl, ?_, batchProcess_spec f fuel q ps, ?_⟩
  · intro hd
    unfold BatchQueueState.endOp
    rw [if_neg (by omega)]
  · intro hd
    unfold BatchQueueState.endOp
    rw [hd]
    simp
  · intro batch
    rw [flushBatchRun_spec]
    simp
  · intro n h1 h2
    exact batchProcess_total f fuel q n h1 h2

/-- Witness for claim C9: one batchable (id 0) whose flush enqueues a
second one (id 1) that adds nothing: `end()` at depth 1 drains in exactly
two passes `[0]`, `[1]` and the third pass is empty. -/
theorem claim_C9_witness :
    batchProcess (fun n => if n == 0 then [1] else []) 3 [0] = some [[0], [1]]
    ∧ ([[0], [1]] : List (List Nat)).getD 1 []
        = passSeq (fun n => if n == 0 then [1] else []) [0] 1
    ∧ passSeq (fun n => if n == 0 then [1] else []) [0] 2 = [] := by
  have h := claim_C9_batch_queue { queue := [0], depth := 1 }
    (fun n => if n == 0 then [1] else []) 3 id [0] [[0], [1]]
  have hp := h.2.2.2.2.2.1 (by rfl)
  exact ⟨by rfl, hp.1 1 (by decide), hp.2.1⟩
